import Mathlib

/-!
Verification development for the midi-player repository.

Shallow embedding conventions:
* C++ `std::uint8_t` / `std::uint16_t` / `std::uint32_t` values are `Nat`;
  wrap-around is written explicitly (`% 2 ^ 32`) at the points where the
  C++ arithmetic can overflow (tick accumulation, unsigned subtraction).
* C++ `double` values are `ℚ`: every floating-point operation performed by
  the program (sums, products, divisions of small integers and `1e-6`)
  is modelled as the exact rational operation.
* Functions that throw (`std::runtime_error`) return `Except String`.
* The bounded per-track decode loop is written with explicit fuel and a
  three-valued result (`PRes`), so that termination is a provable statement
  (sufficient fuel never yields `PRes.fuelOut`).
* `std::sort` guarantees only that the result is a permutation of the input
  that is sorted with respect to the comparator (it is not stable), so the
  two sorting call sites are modelled relationally by exactly that contract.
-/

set_option maxHeartbeats 1000000

namespace MidiPlayer

/-! ## Byte cursor (src/common/reader.hpp) -/

/-- Bounds-checked byte cursor over an in-memory buffer (`struct Bytes`).
Bytes are `Nat`; the `std::uint8_t` range invariant (every byte < 256) is a
hypothesis of the theorems that depend on it. -/
structure Bytes where
  data : List Nat
  off : Nat
deriving Repr, DecidableEq

/-- `Bytes::u8`: read one byte, fail if the read would run past the end. -/
def Bytes.u8 (r : Bytes) : Except String (Nat × Bytes) :=
  if r.data.length < r.off + 1 then .error "EOF while reading u8"
  else .ok (r.data.getD r.off 0, { r with off := r.off + 1 })

/-- `Bytes::be16`: read a big-endian 16-bit value (hi byte then low byte). -/
def Bytes.be16 (r : Bytes) : Except String (Nat × Bytes) :=
  if r.data.length < r.off + 2 then .error "EOF while reading be16"
  else
    let hi := r.data.getD r.off 0
    let low := r.data.getD (r.off + 1) 0
    .ok ((hi <<< 8) ||| low, { r with off := r.off + 2 })

/-- `Bytes::be32`: read a big-endian 32-bit value (bytes b0 b1 b2 b3). -/
def Bytes.be32 (r : Bytes) : Except String (Nat × Bytes) :=
  if r.data.length < r.off + 4 then .error "EOF while reading be32"
  else
    let b0 := r.data.getD r.off 0
    let b1 := r.data.getD (r.off + 1) 0
    let b2 := r.data.getD (r.off + 2) 0
    let b3 := r.data.getD (r.off + 3) 0
    .ok ((b0 <<< 24) ||| (b1 <<< 16) ||| (b2 <<< 8) ||| b3, { r with off := r.off + 4 })

/-- `Bytes::skip`: advance by `n` bytes without reading them. -/
def Bytes.skip (r : Bytes) (n : Nat) : Except String Bytes :=
  if r.data.length < r.off + n then .error "EOF while skipping bytes"
  else .ok { r with off := r.off + n }

/-- Loop body of `read_vlq`: the `for (int i = 0; i < 4; ++i)` iteration count
is the first argument, `v` the accumulator. -/
def read_vlq_go : Nat → Nat → Bytes → Except String (Nat × Bytes)
  | 0, v, r => .ok (v, r)
  | i + 1, v, r =>
    match r.u8 with
    | .error e => .error e
    | .ok (b, r1) =>
      let v1 := (v <<< 7) ||| (b &&& 0x7F)
      if b &&& 0x80 = 0 then .ok (v1, r1) else read_vlq_go i v1 r1

/-- `read_vlq`: MIDI variable-length quantity, at most 4 bytes, 7 data bits
per byte accumulated most-significant-group first, stopping at the first byte
whose high bit is clear. -/
def read_vlq (r : Bytes) : Except String (Nat × Bytes) :=
  read_vlq_go 4 0 r

/-! ## Domain types (src/midi/events.hpp) -/

/-- `enum class EvType`. -/
inductive EvType where
  | NoteOn
  | NoteOff
deriving Repr, DecidableEq

/-- `struct NoteEv`. -/
structure NoteEv where
  tick : Nat
  ch : Nat
  note : Nat
  vel : Nat
  type : EvType
deriving Repr, DecidableEq

/-- `struct TempoEv`. -/
structure TempoEv where
  tick : Nat
  usPerQN : Nat
deriving Repr, DecidableEq

/-- `struct SMFHeader`. `smpte_fps` is an `int` in C++ but its computed value
`256 - x` with `x ≤ 255` never goes negative, so `Nat` loses nothing. -/
structure SMFHeader where
  format : Nat := 0
  nTracks : Nat := 0
  division : Nat := 0
  isPPQN : Bool := true
  ppqn : Nat := 480
  smpte_fps : Nat := 0
  smpte_sub : Nat := 0
deriving Repr, DecidableEq

/-- `struct Song`. -/
structure Song where
  header : SMFHeader
  notes : List NoteEv
  tempi : List TempoEv
deriving Repr, DecidableEq

/-- `struct TempoSeg` (`double` fields as `ℚ`). -/
structure TempoSeg where
  startTick : Nat
  startSec : ℚ
  usPerQN : ℚ
deriving Repr, DecidableEq

/-- `struct TempoMap`. -/
structure TempoMap where
  ppqn : Nat
  segments : List TempoSeg
deriving Repr, DecidableEq

/-! ## SMF parsing (src/midi/smf.cpp) -/

/-- Three-valued decode result: `fuelOut` marks fuel exhaustion of the
embedded loop (proved unreachable for sufficient fuel), `fail` models a
thrown `std::runtime_error`, `done` a normal return. -/
inductive PRes (α : Type) where
  | fuelOut : PRes α
  | fail : String → PRes α
  | done : α → PRes α
deriving Repr, DecidableEq

instance : Monad PRes where
  pure := PRes.done
  bind x f :=
    match x with
    | .fuelOut => .fuelOut
    | .fail e => .fail e
    | .done a => f a

/-- Lift a throwing operation into the decode result. -/
def liftE {α : Type} : Except String α → PRes α
  | .error e => .fail e
  | .ok a => .done a

/-- `parse_header`: validate "MThd", length 6, read format / nTracks /
division and decode the division field. -/
def parse_header (r : Bytes) : Except String (SMFHeader × Bytes) :=
  match r.be32 with
  | .error e => .error e
  | .ok (id, r) =>
    if id ≠ 0x4d546864 then .error "Not a MIDI file (missing MThd)"
    else
      match r.be32 with
      | .error e => .error e
      | .ok (length, r) =>
        if length ≠ 6 then .error "Header chunk length must be 6"
        else
          match r.be16 with
          | .error e => .error e
          | .ok (format, r) =>
            match r.be16 with
            | .error e => .error e
            | .ok (nTracks, r) =>
              match r.be16 with
              | .error e => .error e
              | .ok (division, r) =>
                if division &&& 0x8000 = 0 then
                  .ok ({ format := format, nTracks := nTracks, division := division,
                         isPPQN := true, ppqn := division &&& 0x7FFF }, r)
                else
                  .ok ({ format := format, nTracks := nTracks, division := division,
                         isPPQN := false, ppqn := 480,
                         smpte_fps := 256 - ((division >>> 8) &&& 0xFF),
                         smpte_sub := division &&& 0xFF }, r)

/-- `make_slice`: copy `len` bytes starting at `start` into a fresh cursor. -/
def make_slice (file : List Nat) (start len : Nat) : Except String Bytes :=
  if start + len > file.length then .error "Track slice out of range"
  else .ok ⟨(file.drop start).take len, 0⟩

/-- The C++ conditional read `haveData1 ? data1 : tr.u8()`: running status
supplies the first data byte, otherwise it is read from the track. -/
def readD1 (hd : Bool) (d1 : Nat) (tr : Bytes) : PRes (Nat × Bytes) :=
  if hd then pure (d1, tr) else liftE tr.u8

/-- Channel messages with two data bytes (status nibbles 8/9/A/B/E): read
the data bytes and emit a NoteOn, a NoteOff (true 0x80 or 0x90 with zero
velocity), or nothing. -/
def noteBranch (tr : Bytes) (tick type ch : Nat) (hd : Bool) (data1 : Nat)
    (outNotes : List NoteEv) (outTempi : List TempoEv) :
    PRes (Bytes × List NoteEv × List TempoEv × Bool) := do
  let (d1, tr) ← readD1 hd data1 tr
  let (d2, tr) ← liftE tr.u8
  if type = 0x90 ∧ d2 ≠ 0 then
    pure (tr, outNotes ++ [⟨tick, ch, d1, d2, .NoteOn⟩], outTempi, false)
  else if type = 0x80 ∨ (type = 0x90 ∧ d2 = 0) then
    pure (tr, outNotes ++ [⟨tick, ch, d1, d2, .NoteOff⟩], outTempi, false)
  else
    pure (tr, outNotes, outTempi, false)

/-- Meta events (status 0xFF): End-of-Track terminates the walk, a
3-byte tempo payload emits a TempoEv, anything else is skipped. -/
def metaBranch (tr : Bytes) (tick : Nat)
    (outNotes : List NoteEv) (outTempi : List TempoEv) :
    PRes (Bytes × List NoteEv × List TempoEv × Bool) := do
  let (metaType, tr) ← liftE tr.u8
  let (mlen, tr) ← liftE (read_vlq tr)
  if metaType = 0x2F then do
    let tr ← if mlen ≠ 0 then liftE (tr.skip mlen) else pure tr
    pure (tr, outNotes, outTempi, true)
  else if metaType = 0x51 ∧ mlen = 3 then do
    let (t0, tr) ← liftE tr.u8
    let (t1, tr) ← liftE tr.u8
    let (t2, tr) ← liftE tr.u8
    let usPerQN := (t0 <<< 16) ||| (t1 <<< 8) ||| t2
    pure (tr, outNotes, outTempi ++ [⟨tick, usPerQN⟩], false)
  else do
    let tr ← liftE (tr.skip mlen)
    pure (tr, outNotes, outTempi, false)

/-- System-exclusive events (status 0xF0/0xF7): read a length and skip. -/
def sysexBranch (tr : Bytes)
    (outNotes : List NoteEv) (outTempi : List TempoEv) :
    PRes (Bytes × List NoteEv × List TempoEv × Bool) := do
  let (slen, tr) ← liftE (read_vlq tr)
  let tr ← liftE (tr.skip slen)
  pure (tr, outNotes, outTempi, false)

/-- Dispatch of one event after the status byte has been resolved: the
if/else chain in the body of the `while` loop of `walk_one_track`, with each
branch body named above.  Returns the advanced cursor, the extended event
lists, and whether End-of-Track was reached (the `break`). -/
def dispatchEvent (tr : Bytes) (tick status : Nat) (haveData1 : Bool) (data1 : Nat)
    (outNotes : List NoteEv) (outTempi : List TempoEv) :
    PRes (Bytes × List NoteEv × List TempoEv × Bool) :=
  let type := status &&& 0xF0
  let ch := status &&& 0x0F
  if type = 0x80 ∨ type = 0x90 ∨ type = 0xA0 ∨ type = 0xB0 ∨ type = 0xE0 then
    noteBranch tr tick type ch haveData1 data1 outNotes outTempi
  else if type = 0xC0 ∨ type = 0xD0 then do
    let (_, tr) ← readD1 haveData1 data1 tr
    pure (tr, outNotes, outTempi, false)
  else if status = 0xFF then
    metaBranch tr tick outNotes outTempi
  else if status = 0xF0 ∨ status = 0xF7 then
    sysexBranch tr outNotes outTempi
  else
    .fail "Unsupported or malformed status byte"

/-- The `while (tr.off < tr.data.size())` loop of `walk_one_track`, with
explicit fuel.  `tick` is the `std::uint32_t` accumulator, `running` the
running-status byte (0 = none seen yet). -/
def walkLoop : Nat → Bytes → Nat → Nat → List NoteEv → List TempoEv →
    PRes (List NoteEv × List TempoEv)
  | fuel, tr, tick, running, outNotes, outTempi =>
    if tr.off < tr.data.length then
      match fuel with
      | 0 => .fuelOut
      | fuel + 1 => do
        let (delta, tr) ← liftE (read_vlq tr)
        let tick := (tick + delta) % 2 ^ 32
        let (first, tr) ← liftE tr.u8
        if first &&& 0x80 ≠ 0 then do
          let running := if first &&& 0xF0 < 0xF0 then first else running
          let (tr, outNotes, outTempi, brk) ←
            dispatchEvent tr tick first false 0 outNotes outTempi
          if brk then pure (outNotes, outTempi)
          else walkLoop fuel tr tick running outNotes outTempi
        else
          if running = 0 then .fail "Running status used before any status"
          else do
            let (tr, outNotes, outTempi, brk) ←
              dispatchEvent tr tick running true first outNotes outTempi
            if brk then pure (outNotes, outTempi)
            else walkLoop fuel tr tick running outNotes outTempi
    else
      .done (outNotes, outTempi)

/-- `walk_one_track`: validate "MTrk", slice out the declared track bytes,
advance the outer cursor past them, and walk the slice.  The walk gets fuel
equal to the slice length, which the termination theorem shows is enough. -/
def walk_one_track (file : List Nat) (r : Bytes)
    (outNotes : List NoteEv) (outTempi : List TempoEv) :
    PRes (Bytes × List NoteEv × List TempoEv) := do
  let (id, r) ← liftE r.be32
  if id ≠ 0x4D54726B then .fail "Missing MTrk chunk"
  else do
    let (len, r) ← liftE r.be32
    let trackStart := r.off
    let tr ← liftE (make_slice file trackStart len)
    let r ← liftE (r.skip len)
    let (notes, tempi) ← walkLoop tr.data.length tr 0 0 outNotes outTempi
    pure (r, notes, tempi)

/-- The `for (i = 0; i < header.nTracks; ++i)` loop of `parse_smf`. -/
def tracksLoop (file : List Nat) : Nat → Bytes → List NoteEv → List TempoEv →
    PRes (List NoteEv × List TempoEv)
  | 0, _, notes, tempi => .done (notes, tempi)
  | n + 1, r, notes, tempi => do
    let (r, notes, tempi) ← walk_one_track file r notes tempi
    tracksLoop file n r notes tempi

/-- `parse_smf`: header, then every declared track, then assemble the Song. -/
def parse_smf (bytes : List Nat) : PRes Song := do
  let (header, r) ← liftE (parse_header ⟨bytes, 0⟩)
  let (notes, tempi) ← tracksLoop bytes header.nTracks r [] []
  pure (⟨header, notes, tempi⟩ : Song)

/-! ## Tempo map (src/midi/tempo.cpp) -/

/-- PPQN resolution at the top of `build_tempo_map`: SMPTE timing falls back
to 480. -/
def resolve_ppqn (h : SMFHeader) : Nat :=
  if h.isPPQN then h.ppqn else 480

/-- Unsigned 32-bit subtraction `a - b` with explicit wrap-around, as the
C++ `std::uint32_t` subtraction computes it. -/
def u32sub (a b : Nat) : Nat :=
  (a % 2 ^ 32 + 2 ^ 32 - b % 2 ^ 32) % 2 ^ 32

/-- The `for (const auto &t : tempi)` loop of `build_tempo_map`: walk the
sorted tempo events keeping `lastTick`, the current tempo and the
accumulated seconds, emitting one segment per in-order event and silently
skipping events with `t.tick < lastTick`. -/
def build_segments_go (ppqn : Nat) : List TempoEv → Nat → ℚ → ℚ → List TempoSeg
  | [], _, _, _ => []
  | t :: rest, lastTick, cur, accSec =>
    if t.tick < lastTick then build_segments_go ppqn rest lastTick cur accSec
    else
      let deltaQN : ℚ := (u32sub t.tick lastTick : ℚ) / (ppqn : ℚ)
      let accSec1 := accSec + deltaQN * (cur * (1 / 1000000))
      let cur1 : ℚ := (t.usPerQN : ℚ)
      ⟨t.tick, accSec1, cur1⟩ :: build_segments_go ppqn rest t.tick cur1 accSec1

/-- Segment list built by `build_tempo_map` from an already-sorted tempo
list: the synthetic default segment followed by the loop's output. -/
def build_segments (ppqn : Nat) (tempi : List TempoEv) : List TempoSeg :=
  ⟨0, 0, 500000⟩ :: build_segments_go ppqn tempi 0 500000 0

/-- Contract of the `std::sort(tempi.begin(), tempi.end(), a.tick < b.tick)`
call: the result is a permutation of the input that is sorted with respect
to the comparator.  `std::sort` promises nothing more (in particular it is
not stable), so the sorted copy is modelled relationally. -/
def cpp_sort_spec (input output : List TempoEv) : Prop :=
  output.Perm input ∧ List.Pairwise (fun a b : TempoEv => a.tick ≤ b.tick) output

/-- `build_tempo_map` as a relation between the Song and the produced map:
some valid `std::sort` output of `song.tempi` is walked by the segment
loop. -/
def build_tempo_map (song : Song) (m : TempoMap) : Prop :=
  m.ppqn = resolve_ppqn song.header ∧
  ∃ sorted, cpp_sort_spec song.tempi sorted ∧
    m.segments = build_segments (resolve_ppqn song.header) sorted

/-- The scan inside `ticks_to_seconds`: keep the last segment whose
`startTick ≤ tick`, stop at the first that is not (`break`). -/
def findSeg (tick : Nat) : TempoSeg → List TempoSeg → TempoSeg
  | cur, [] => cur
  | cur, s :: rest => if s.startTick ≤ tick then findSeg tick s rest else cur

/-- `ticks_to_seconds`: locate the governing segment and extrapolate from
its start.  The empty-segment case is unreachable for built maps (C++ would
hit undefined behavior on `front()`); it is mapped to 0 here. -/
def ticks_to_seconds (tick : Nat) (tempo : TempoMap) : ℚ :=
  match tempo.segments with
  | [] => 0
  | s0 :: _ =>
    let seg := findSeg tick s0 tempo.segments
    let deltaQN : ℚ := (u32sub tick seg.startTick : ℚ) / (tempo.ppqn : ℚ)
    seg.startSec + deltaQN * (seg.usPerQN * (1 / 1000000))

/-! ## Schedule and playback (src/audio/player.cpp) -/

/-- `struct ScheduledEvent` (`double tSec` as `ℚ`; the C++ field `on` is
spelled `isOn` because `on` is reserved in Lean). -/
structure ScheduledEvent where
  tSec : ℚ
  ch : Nat
  note : Nat
  vel : Nat
  isOn : Bool
deriving Repr, DecidableEq

/-- The comparator lambda passed to `std::sort` in `build_schedule`:
time, then NoteOff before NoteOn, then channel, then note. -/
def evLt (a b : ScheduledEvent) : Bool :=
  if a.tSec ≠ b.tSec then decide (a.tSec < b.tSec)
  else if a.isOn ≠ b.isOn then b.isOn
  else if a.ch ≠ b.ch then decide (a.ch < b.ch)
  else decide (a.note < b.note)

/-- Per-note conversion in `build_schedule`'s first loop. -/
def toScheduled (tempo : TempoMap) (n : NoteEv) : ScheduledEvent :=
  ⟨ticks_to_seconds n.tick tempo, n.ch, n.note, n.vel,
    decide (n.type = EvType.NoteOn)⟩

/-- Sortedness with respect to the schedule comparator, in the form
`std::sort` guarantees: no later element compares before an earlier one. -/
def schedSorted (l : List ScheduledEvent) : Prop :=
  List.Pairwise (fun a b => evLt b a = false) l

/-- `build_schedule` as a relation: the output is a `std::sort`-valid
rearrangement of the converted note list. -/
def build_schedule (song : Song) (tempo : TempoMap) (evs : List ScheduledEvent) : Prop :=
  evs.Perm (song.notes.map (toScheduled tempo)) ∧ schedSorted evs

/-- The mutable playback state the audio callback reads and writes:
the cursor into the event list and the audio clock. -/
structure CBState where
  nextIndex : Nat
  timeSec : ℚ
deriving Repr, DecidableEq

/-- One invocation of `data_callback`: compute the window `[t0, t1]`,
dispatch the run of not-yet-dispatched events with `tSec ≤ t1` in cursor
order (the `while` loop), and advance the clock to `t1`.  Returns the new
state and the dispatched events in dispatch order. -/
def data_callback_step (evs : List ScheduledEvent) (st : CBState)
    (frameCount sampleRate : Nat) : CBState × List ScheduledEvent :=
  let t0 := st.timeSec
  let dt : ℚ := (frameCount : ℚ) / (sampleRate : ℚ)
  let t1 := t0 + dt
  let fired := (evs.drop st.nextIndex).takeWhile (fun e => decide (e.tSec ≤ t1))
  (⟨st.nextIndex + fired.length, t1⟩, fired)

/-- A sequence of audio-callback invocations with the given frame counts,
collecting every dispatched event in order. -/
def runCallbacks (evs : List ScheduledEvent) (sampleRate : Nat) :
    List Nat → CBState → CBState × List ScheduledEvent
  | [], st => (st, [])
  | fc :: rest, st =>
    let p := data_callback_step evs st fc sampleRate
    let q := runCallbacks evs sampleRate rest p.1
    (q.1, p.2 ++ q.2)

/-! ## Spec-side definitions -/

/-- Modelled from the spec: the MIDI-standard variable-length-quantity
encoding of a value (7 bits per byte, most-significant group first,
continuation via the high bit, minimal length, at most 4 bytes).  Used only
to state the decode round-trip claim. -/
def vlq_encode (v : Nat) : List Nat :=
  if v < 2 ^ 7 then [v]
  else if v < 2 ^ 14 then [128 + v / 2 ^ 7, v % 128]
  else if v < 2 ^ 21 then [128 + v / 2 ^ 14, 128 + v / 2 ^ 7 % 128, v % 128]
  else [128 + v / 2 ^ 21, 128 + v / 2 ^ 14 % 128, 128 + v / 2 ^ 7 % 128, v % 128]

/-- Strict ascent of segment start ticks, as claimed by the spec invariant. -/
def strictAscTicks (segs : List TempoSeg) : Prop :=
  List.Pairwise (fun a b => a.startTick < b.startTick) segs

/-- Weak ascent of segment start ticks (what the code actually ensures). -/
def nondecTicks (segs : List TempoSeg) : Prop :=
  List.Pairwise (fun a b => a.startTick ≤ b.startTick) segs

/-- Sortedness of a schedule by time alone (what the window-dispatch logic
of the callback needs). -/
def timeSorted (l : List ScheduledEvent) : Prop :=
  List.Pairwise (fun a b => a.tSec ≤ b.tSec) l

/-! ## Concrete example inputs used by the claim theorems -/

/-- Song whose only tempo event sits exactly at tick 0 (header defaults:
PPQN timing, ppqn 480). -/
def songT0 : Song := ⟨{}, [], [⟨0, 600000⟩]⟩

/-- The tempo map `build_tempo_map` produces for `songT0`. -/
def mapT0 : TempoMap := ⟨480, build_segments 480 [⟨0, 600000⟩]⟩

/-- Song with ppqn 480 and a single tempo event (tick 960, 600000 µs/q). -/
def song960 : Song := ⟨{}, [], [⟨960, 600000⟩]⟩

/-- Tempo map of a Song with no tempo events: the default segment only. -/
def mapD : TempoMap := ⟨480, build_segments 480 []⟩

/-- NoteOn on channel 2 at tick 0. -/
def nOn2 : NoteEv := ⟨0, 2, 60, 100, .NoteOn⟩

/-- NoteOff on channel 1 at tick 0. -/
def nOff1 : NoteEv := ⟨0, 1, 60, 0, .NoteOff⟩

/-- `nOn2` scheduled through `mapD` (time 0). -/
def sOn2 : ScheduledEvent := toScheduled mapD nOn2

/-- `nOff1` scheduled through `mapD` (time 0). -/
def sOff1 : ScheduledEvent := toScheduled mapD nOff1

/-- Two coincident events, NoteOn first in decode order. -/
def songPairA : Song := ⟨{}, [nOn2, nOff1], []⟩

/-- Two coincident events, NoteOff first in decode order. -/
def songPairB : Song := ⟨{}, [nOff1, nOn2], []⟩

/-! ## Helper lemmas: bit arithmetic -/

theorem and127_eq (x : Nat) : x &&& 127 = x % 128 := by
  have h := Nat.and_pow_two_sub_one_eq_mod x 7
  norm_num at h
  exact h

theorem and128_eq (x : Nat) : x &&& 128 = if x / 128 % 2 = 1 then 128 else 0 := by
  have h := Nat.and_two_pow x 7
  rw [Nat.testBit_to_div_mod] at h
  norm_num at h
  rw [h]
  by_cases hb : x / 128 % 2 = 1 <;> simp [hb]

theorem and127_of_lt {x : Nat} (h : x < 128) : x &&& 127 = x := by
  rw [and127_eq]; omega

theorem and128_of_lt {x : Nat} (h : x < 128) : x &&& 128 = 0 := by
  rw [and128_eq]
  have : x / 128 = 0 := by omega
  simp [this]

theorem and128_of_cont {x : Nat} (h1 : 128 ≤ x) (h2 : x < 256) : x &&& 128 = 128 := by
  rw [and128_eq]
  have : x / 128 = 1 := by omega
  simp [this]

theorem or_shift (a : Nat) {b : Nat} (n : Nat) (hb : b < 2 ^ n) :
    (a <<< n) ||| b = a * 2 ^ n + b := by
  have h := Nat.mul_add_lt_is_or hb a
  calc a <<< n ||| b = a * 2 ^ n ||| b := by rw [Nat.shiftLeft_eq]
    _ = 2 ^ n * a ||| b := by rw [Nat.mul_comm]
    _ = 2 ^ n * a + b := h.symm
    _ = a * 2 ^ n + b := by rw [Nat.mul_comm]

theorem or_shift7 (a : Nat) {b : Nat} (hb : b < 128) : (a <<< 7) ||| b = a * 128 + b := by
  have h := or_shift a 7 (show b < 2 ^ 7 by omega)
  norm_num at h
  exact h

theorem or_shift8 (a : Nat) {b : Nat} (hb : b < 256) : (a <<< 8) ||| b = a * 256 + b := by
  have h := or_shift a 8 (show b < 2 ^ 8 by omega)
  norm_num at h
  exact h

theorem or_shift16 (a : Nat) {b : Nat} (hb : b < 65536) :
    (a <<< 16) ||| b = a * 65536 + b := by
  have h := or_shift a 16 (show b < 2 ^ 16 by omega)
  norm_num at h
  exact h

theorem or_shift24 (a : Nat) {b : Nat} (hb : b < 16777216) :
    (a <<< 24) ||| b = a * 16777216 + b := by
  have h := or_shift a 24 (show b < 2 ^ 24 by omega)
  norm_num at h
  exact h

theorem be32_digits {b0 b1 b2 b3 : Nat} (h1 : b1 < 256) (h2 : b2 < 256) (h3 : b3 < 256) :
    (b0 <<< 24) ||| (b1 <<< 16) ||| (b2 <<< 8) ||| b3
      = b0 * 16777216 + b1 * 65536 + b2 * 256 + b3 := by
  rw [Nat.or_assoc, Nat.or_assoc, or_shift8 b2 h3, or_shift16 b1 (by omega),
    or_shift24 b0 (by omega)]
  omega

theorem getD_lt_256 {bs : List Nat} (hb : ∀ b ∈ bs, b < 256) (i : Nat) :
    bs.getD i 0 < 256 := by
  rw [List.getD_eq_getElem?_getD]
  rcases h : bs[i]? with _ | b
  · simp
  · simpa using hb b (List.getElem?_mem h)

/-! ## Helper lemmas: byte cursor characterizations -/

theorem u8_ok {r : Bytes} {b : Nat} {r1 : Bytes} (h : r.u8 = .ok (b, r1)) :
    r.off < r.data.length ∧ b = r.data.getD r.off 0 ∧ r1 = ⟨r.data, r.off + 1⟩ := by
  unfold Bytes.u8 at h
  split at h
  · cases h
  · rename_i hc
    obtain ⟨h1, h2⟩ := Prod.mk.injEq .. ▸ Except.ok.inj h
    exact ⟨by omega, h1.symm, by cases r; cases h2; rfl⟩

theorem be16_ok {r : Bytes} {v : Nat} {r1 : Bytes} (h : r.be16 = .ok (v, r1)) :
    r.off + 2 ≤ r.data.length ∧
    v = (r.data.getD r.off 0 <<< 8) ||| r.data.getD (r.off + 1) 0 ∧
    r1 = ⟨r.data, r.off + 2⟩ := by
  unfold Bytes.be16 at h
  split at h
  · cases h
  · rename_i hc
    obtain ⟨h1, h2⟩ := Prod.mk.injEq .. ▸ Except.ok.inj h
    exact ⟨by omega, h1.symm, by cases r; cases h2; rfl⟩

theorem be32_ok {r : Bytes} {v : Nat} {r1 : Bytes} (h : r.be32 = .ok (v, r1)) :
    r.off + 4 ≤ r.data.length ∧
    v = (r.data.getD r.off 0 <<< 24) ||| (r.data.getD (r.off + 1) 0 <<< 16) |||
        (r.data.getD (r.off + 2) 0 <<< 8) ||| r.data.getD (r.off + 3) 0 ∧
    r1 = ⟨r.data, r.off + 4⟩ := by
  unfold Bytes.be32 at h
  split at h
  · cases h
  · rename_i hc
    obtain ⟨h1, h2⟩ := Prod.mk.injEq .. ▸ Except.ok.inj h
    exact ⟨by omega, h1.symm, by cases r; cases h2; rfl⟩

theorem skip_ok {r : Bytes} {n : Nat} {r1 : Bytes} (h : r.skip n = .ok r1) :
    r.off + n ≤ r.data.length ∧ r1 = ⟨r.data, r.off + n⟩ := by
  unfold Bytes.skip at h
  split at h
  · cases h
  · rename_i hc
    exact ⟨by omega, by cases r; cases Except.ok.inj h; rfl⟩

/-! ## Helper lemmas: variable-length quantities -/

theorem read_vlq_go_succ (n v : Nat) (r : Bytes) :
    read_vlq_go (n + 1) v r =
      match r.u8 with
      | .error e => .error e
      | .ok (b, r1) =>
        if b &&& 0x80 = 0 then .ok ((v <<< 7) ||| (b &&& 0x7F), r1)
        else read_vlq_go n ((v <<< 7) ||| (b &&& 0x7F)) r1 := by
  rw [read_vlq_go]

theorem read_vlq_go_ok : ∀ (i v : Nat) (r : Bytes) {v1 : Nat} {r1 : Bytes},
    read_vlq_go i v r = .ok (v1, r1) →
    r1.data = r.data ∧ r.off ≤ r1.off ∧ r1.off ≤ r.off + i := by
  intro i
  induction i with
  | zero =>
    intro v r v1 r1 h
    obtain ⟨h1, h2⟩ := Prod.mk.injEq .. ▸ Except.ok.inj h
    subst h2
    exact ⟨rfl, Nat.le_refl _, Nat.le_add_right _ _⟩
  | succ n ih =>
    intro v r v1 r1 h
    rw [read_vlq_go_succ] at h
    rcases hu : r.u8 with e | ⟨b, r2⟩ <;> rw [hu] at h
    · cases h
    · obtain ⟨hlt, hb, hr2⟩ := u8_ok hu
      simp only at h
      split at h
      · obtain ⟨h1, h2⟩ := Prod.mk.injEq .. ▸ Except.ok.inj h
        subst h2
        subst hr2
        exact ⟨rfl, Nat.le_succ _, by show r.off + 1 ≤ r.off + (n + 1); omega⟩
      · obtain ⟨hd, ho1, ho2⟩ := ih _ r2 h
        subst hr2
        have hd' : r1.data = r.data := hd
        have ho1' : r.off + 1 ≤ r1.off := ho1
        have ho2' : r1.off ≤ r.off + 1 + n := ho2
        exact ⟨hd', by omega, by omega⟩

theorem read_vlq_ok {r : Bytes} {v : Nat} {r1 : Bytes} (h : read_vlq r = .ok (v, r1)) :
    r1.data = r.data ∧ r.off + 1 ≤ r1.off ∧ r1.off ≤ r.off + 4 := by
  unfold read_vlq at h
  rw [show (4 : Nat) = 3 + 1 from rfl, read_vlq_go_succ] at h
  rcases hu : r.u8 with e | ⟨b, r2⟩ <;> rw [hu] at h
  · cases h
  · obtain ⟨hlt, hb, hr2⟩ := u8_ok hu
    simp only at h
    split at h
    · obtain ⟨h1, h2⟩ := Prod.mk.injEq .. ▸ Except.ok.inj h
      subst h2
      subst hr2
      exact ⟨rfl, Nat.le_refl _, by show r.off + 1 ≤ r.off + 4; omega⟩
    · obtain ⟨hd, ho1, ho2⟩ := read_vlq_go_ok 3 _ r2 h
      subst hr2
      have hd' : r1.data = r.data := hd
      have ho1' : r.off + 1 ≤ r1.off := ho1
      have ho2' : r1.off ≤ r.off + 1 + 3 := ho2
      exact ⟨hd', by omega, by omega⟩

theorem vlq_step_cont {data : List Nat} {off x : Nat} (hx : x < 128)
    (hget : data.getD off 0 = 128 + x) (hlen : off < data.length) (i v : Nat) :
    read_vlq_go (i + 1) v ⟨data, off⟩ = read_vlq_go i (v * 128 + x) ⟨data, off + 1⟩ := by
  have hu : (⟨data, off⟩ : Bytes).u8 = .ok (128 + x, ⟨data, off + 1⟩) := by
    unfold Bytes.u8
    rw [if_neg (by show ¬ data.length < off + 1; omega)]
    rw [show (⟨data, off⟩ : Bytes).data.getD (⟨data, off⟩ : Bytes).off 0
          = data.getD off 0 from rfl, hget]
  have h127 : (128 + x) &&& 127 = x := by rw [and127_eq]; omega
  have h128 : (128 + x) &&& 128 = 128 := and128_of_cont (by omega) (by omega)
  rw [read_vlq_go_succ, hu]
  simp only [h127, h128]
  rw [if_neg (by omega), or_shift7 v hx]

theorem vlq_step_last {data : List Nat} {off x : Nat} (hx : x < 128)
    (hget : data.getD off 0 = x) (hlen : off < data.length) (i v : Nat) :
    read_vlq_go (i + 1) v ⟨data, off⟩ = .ok (v * 128 + x, ⟨data, off + 1⟩) := by
  have hu : (⟨data, off⟩ : Bytes).u8 = .ok (x, ⟨data, off + 1⟩) := by
    unfold Bytes.u8
    rw [if_neg (by show ¬ data.length < off + 1; omega)]
    rw [show (⟨data, off⟩ : Bytes).data.getD (⟨data, off⟩ : Bytes).off 0
          = data.getD off 0 from rfl, hget]
  have h127 : x &&& 127 = x := and127_of_lt hx
  have h128 : x &&& 128 = 0 := and128_of_lt hx
  rw [read_vlq_go_succ, hu]
  simp only [h127, h128, if_true]
  rw [or_shift7 v hx]

theorem vlq_round_trip {v : Nat} (hv : v < 2 ^ 28) (rest : List Nat) :
    read_vlq ⟨vlq_encode v ++ rest, 0⟩ =
      .ok (v, ⟨vlq_encode v ++ rest, (vlq_encode v).length⟩) := by
  unfold read_vlq
  by_cases c1 : v < 2 ^ 7
  · have he : vlq_encode v = [v] := by unfold vlq_encode; rw [if_pos c1]
    rw [he]
    rw [show (4 : Nat) = 3 + 1 from rfl,
      vlq_step_last (x := v) (by omega) (by simp) (by simp) 3 0]
    have hval : 0 * 128 + v = v := by omega
    rw [hval]
    rfl
  · by_cases c2 : v < 2 ^ 14
    · have he : vlq_encode v = [128 + v / 128, v % 128] := by
        unfold vlq_encode; rw [if_neg c1, if_pos c2]; norm_num
      rw [he]
      rw [show (4 : Nat) = 3 + 1 from rfl,
        vlq_step_cont (x := v / 128) (by omega) (by simp) (by simp) 3 0]
      rw [show (3 : Nat) = 2 + 1 from rfl,
        vlq_step_last (x := v % 128) (by omega) (by simp) (by simp) 2 (0 * 128 + v / 128)]
      have hval : (0 * 128 + v / 128) * 128 + v % 128 = v := by omega
      rw [hval]
      rfl
    · by_cases c3 : v < 2 ^ 21
      · have he : vlq_encode v = [128 + v / 16384, 128 + v / 128 % 128, v % 128] := by
          unfold vlq_encode; rw [if_neg c1, if_neg c2, if_pos c3]; norm_num
        rw [he]
        rw [show (4 : Nat) = 3 + 1 from rfl,
          vlq_step_cont (x := v / 16384) (by omega) (by simp) (by simp) 3 0]
        rw [show (3 : Nat) = 2 + 1 from rfl,
          vlq_step_cont (x := v / 128 % 128) (by omega) (by simp) (by simp) 2 _]
        rw [show (2 : Nat) = 1 + 1 from rfl,
          vlq_step_last (x := v % 128) (by omega) (by simp) (by simp) 1 _]
        have hval : ((0 * 128 + v / 16384) * 128 + v / 128 % 128) * 128 + v % 128 = v := by
          omega
        rw [hval]
        rfl
      · have he : vlq_encode v =
            [128 + v / 2097152, 128 + v / 16384 % 128, 128 + v / 128 % 128, v % 128] := by
          unfold vlq_encode; rw [if_neg c1, if_neg c2, if_neg c3]; norm_num
        rw [he]
        rw [show (4 : Nat) = 3 + 1 from rfl,
          vlq_step_cont (x := v / 2097152) (by omega) (by simp) (by simp) 3 0]
        rw [show (3 : Nat) = 2 + 1 from rfl,
          vlq_step_cont (x := v / 16384 % 128) (by omega) (by simp) (by simp) 2 _]
        rw [show (2 : Nat) = 1 + 1 from rfl,
          vlq_step_cont (x := v / 128 % 128) (by omega) (by simp) (by simp) 1 _]
        rw [show (1 : Nat) = 0 + 1 from rfl,
          vlq_step_last (x := v % 128) (by omega) (by simp) (by simp) 0 _]
        have hval : (((0 * 128 + v / 2097152) * 128 + v / 16384 % 128) * 128
            + v / 128 % 128) * 128 + v % 128 = v := by omega
        rw [hval]
        rfl

/-! ## Claim theorems -/

/-- Claim C5: `read_vlq` consumes between 1 and 4 bytes (never a 5th), and
decoding the standard VLQ encoding of any value below `2 ^ 28` yields the
value back while consuming exactly the encoding (at most 4 bytes), whatever
bytes follow. -/
theorem C5_read_vlq_spec :
    (∀ (r : Bytes) (v : Nat) (r1 : Bytes), read_vlq r = .ok (v, r1) →
      r1.data = r.data ∧ r.off + 1 ≤ r1.off ∧ r1.off ≤ r.off + 4) ∧
    (∀ v : Nat, v < 2 ^ 28 → ∀ rest : List Nat,
      read_vlq ⟨vlq_encode v ++ rest, 0⟩ =
        .ok (v, ⟨vlq_encode v ++ rest, (vlq_encode v).length⟩) ∧
      (vlq_encode v).length ≤ 4) := by
  refine ⟨fun r v r1 h => read_vlq_ok h, fun v hv rest => ⟨vlq_round_trip hv rest, ?_⟩⟩
  unfold vlq_encode
  split
  · simp
  · split
    · simp
    · split <;> simp

/-- Witness for C5: both clauses instantiated at the 3-byte value 200000. -/
theorem C5_read_vlq_spec_witness :
    (read_vlq ⟨[140, 154, 64], 0⟩ = .ok (200000, ⟨[140, 154, 64], 3⟩) →
      ([140, 154, 64] : List Nat) = [140, 154, 64] ∧ 0 + 1 ≤ 3 ∧ 3 ≤ 0 + 4) ∧
    read_vlq ⟨vlq_encode 200000 ++ [], 0⟩ =
      .ok (200000, ⟨vlq_encode 200000 ++ [], (vlq_encode 200000).length⟩) :=
  ⟨fun h => C5_read_vlq_spec.1 ⟨[140, 154, 64], 0⟩ 200000 ⟨[140, 154, 64], 3⟩ h,
   (C5_read_vlq_spec.2 200000 (by norm_num) []).1⟩

/-- Claim C7: `parse_header` succeeds only when the first four bytes are the
ASCII tag "MThd" and the following length field is 6 (so any other input is
rejected); the documented 14 header bytes decode to format 1, two tracks,
PPQN timing with ppqn 480; a division of `E2 50` decodes as SMPTE timing
with 30 frames per second and 80 subframes. -/
theorem C7_parse_header_spec :
    (∀ (bs : List Nat) (h : SMFHeader) (r1 : Bytes), (∀ b ∈ bs, b < 256) →
      parse_header ⟨bs, 0⟩ = .ok (h, r1) →
      8 ≤ bs.length ∧ bs.getD 0 0 = 0x4D ∧ bs.getD 1 0 = 0x54 ∧ bs.getD 2 0 = 0x68 ∧
        bs.getD 3 0 = 0x64 ∧ bs.getD 4 0 = 0 ∧ bs.getD 5 0 = 0 ∧ bs.getD 6 0 = 0 ∧
        bs.getD 7 0 = 6) ∧
    parse_header ⟨[0x4D, 0x54, 0x68, 0x64, 0, 0, 0, 6, 0, 1, 0, 2, 0x01, 0xE0], 0⟩ =
      .ok ({ format := 1, nTracks := 2, division := 0x01E0, isPPQN := true, ppqn := 480,
             smpte_fps := 0, smpte_sub := 0 },
           ⟨[0x4D, 0x54, 0x68, 0x64, 0, 0, 0, 6, 0, 1, 0, 2, 0x01, 0xE0], 14⟩) ∧
    parse_header ⟨[0x4D, 0x54, 0x68, 0x64, 0, 0, 0, 6, 0, 1, 0, 2, 0xE2, 0x50], 0⟩ =
      .ok ({ format := 1, nTracks := 2, division := 0xE250, isPPQN := false, ppqn := 480,
             smpte_fps := 30, smpte_sub := 80 },
           ⟨[0x4D, 0x54, 0x68, 0x64, 0, 0, 0, 6, 0, 1, 0, 2, 0xE2, 0x50], 14⟩) := by
  refine ⟨?_, rfl, rfl⟩
  intro bs h r1 hb hok
  unfold parse_header at hok
  rcases hbe : Bytes.be32 ⟨bs, 0⟩ with e | ⟨id, r2⟩ <;> rw [hbe] at hok
  · cases hok
  · obtain ⟨hlen4, hid, hr2⟩ := be32_ok hbe
    have hid1 : id = (bs.getD 0 0 <<< 24) ||| (bs.getD 1 0 <<< 16) |||
        (bs.getD 2 0 <<< 8) ||| bs.getD 3 0 := hid
    have hr2' : r2 = (⟨bs, 4⟩ : Bytes) := hr2
    simp only at hok
    by_cases hmagic : id = 0x4d546864
    · rw [if_neg (by simp [hmagic])] at hok
      subst hr2'
      rcases hbe2 : Bytes.be32 (⟨bs, 4⟩ : Bytes) with e | ⟨len, r3⟩ <;> rw [hbe2] at hok
      · cases hok
      · obtain ⟨hlen8, hlen, hr3⟩ := be32_ok hbe2
        have hlen1 : len = (bs.getD 4 0 <<< 24) ||| (bs.getD 5 0 <<< 16) |||
            (bs.getD 6 0 <<< 8) ||| bs.getD 7 0 := hlen
        simp only at hok
        by_cases hsix : len = 6
        · have g0 := getD_lt_256 hb 0
          have g1 := getD_lt_256 hb 1
          have g2 := getD_lt_256 hb 2
          have g3 := getD_lt_256 hb 3
          have g4 := getD_lt_256 hb 4
          have g5 := getD_lt_256 hb 5
          have g6 := getD_lt_256 hb 6
          have g7 := getD_lt_256 hb 7
          rw [be32_digits g1 g2 g3] at hid1
          have hid' : 0x4d546864 = bs.getD 0 0 * 16777216 + bs.getD 1 0 * 65536 +
              bs.getD 2 0 * 256 + bs.getD 3 0 := by rw [← hmagic, hid1]
          have hlen' : len = bs.getD 4 0 * 16777216 + bs.getD 5 0 * 65536 +
              bs.getD 6 0 * 256 + bs.getD 7 0 := by
            rw [hlen1, be32_digits g5 g6 g7]
          have hln : 4 + 4 ≤ bs.length := hlen8
          refine ⟨by omega, by omega, by omega, by omega, by omega, by omega, by omega,
            by omega, by omega⟩
        · rw [if_pos (by simpa using hsix)] at hok
          cases hok
    · rw [if_pos (by simpa using hmagic)] at hok
      cases hok

/-- Witness for C7: the universal acceptance clause applied to the concrete
documented header bytes. -/
theorem C7_parse_header_spec_witness :
    8 ≤ ([0x4D, 0x54, 0x68, 0x64, 0, 0, 0, 6, 0, 1, 0, 2, 0x01, 0xE0] : List Nat).length ∧
    ([0x4D, 0x54, 0x68, 0x64, 0, 0, 0, 6, 0, 1, 0, 2, 0x01, 0xE0] : List Nat).getD 0 0 = 0x4D ∧
    ([0x4D, 0x54, 0x68, 0x64, 0, 0, 0, 6, 0, 1, 0, 2, 0x01, 0xE0] : List Nat).getD 1 0 = 0x54 ∧
    ([0x4D, 0x54, 0x68, 0x64, 0, 0, 0, 6, 0, 1, 0, 2, 0x01, 0xE0] : List Nat).getD 2 0 = 0x68 ∧
    ([0x4D, 0x54, 0x68, 0x64, 0, 0, 0, 6, 0, 1, 0, 2, 0x01, 0xE0] : List Nat).getD 3 0 = 0x64 ∧
    ([0x4D, 0x54, 0x68, 0x64, 0, 0, 0, 6, 0, 1, 0, 2, 0x01, 0xE0] : List Nat).getD 4 0 = 0 ∧
    ([0x4D, 0x54, 0x68, 0x64, 0, 0, 0, 6, 0, 1, 0, 2, 0x01, 0xE0] : List Nat).getD 5 0 = 0 ∧
    ([0x4D, 0x54, 0x68, 0x64, 0, 0, 0, 6, 0, 1, 0, 2, 0x01, 0xE0] : List Nat).getD 6 0 = 0 ∧
    ([0x4D, 0x54, 0x68, 0x64, 0, 0, 0, 6, 0, 1, 0, 2, 0x01, 0xE0] : List Nat).getD 7 0 = 6 :=
  C7_parse_header_spec.1 [0x4D, 0x54, 0x68, 0x64, 0, 0, 0, 6, 0, 1, 0, 2, 0x01, 0xE0]
    { format := 1, nTracks := 2, division := 0x01E0 }
    ⟨[0x4D, 0x54, 0x68, 0x64, 0, 0, 0, 6, 0, 1, 0, 2, 0x01, 0xE0], 14⟩
    (by decide) rfl

/-! ## Helper lemmas: decode-result monad reductions -/

theorem pres_bind_done {α β : Type} (a : α) (f : α → PRes β) :
    (PRes.done a >>= f) = f a := rfl

theorem pres_bind_fail {α β : Type} (e : String) (f : α → PRes β) :
    ((PRes.fail e : PRes α) >>= f) = .fail e := rfl

theorem pres_bind_fuelOut {α β : Type} (f : α → PRes β) :
    ((PRes.fuelOut : PRes α) >>= f) = .fuelOut := rfl

theorem pres_pure {α : Type} (a : α) : (pure a : PRes α) = .done a := rfl

theorem liftE_ok {α : Type} (a : α) : liftE (.ok a) = .done a := rfl

theorem liftE_error {α : Type} (e : String) :
    (liftE (.error e) : PRes α) = .fail e := rfl

theorem u8_at {data : List Nat} {off x : Nat} (hget : data.getD off 0 = x)
    (hlen : off < data.length) :
    Bytes.u8 ⟨data, off⟩ = .ok (x, ⟨data, off + 1⟩) := by
  unfold Bytes.u8
  rw [if_neg (by show ¬ data.length < off + 1; omega)]
  rw [show (⟨data, off⟩ : Bytes).data.getD (⟨data, off⟩ : Bytes).off 0
        = data.getD off 0 from rfl, hget]

theorem walkLoop_succ (fuel : Nat) (tr : Bytes) (tick running : Nat)
    (outNotes : List NoteEv) (outTempi : List TempoEv) (h : tr.off < tr.data.length) :
    walkLoop (fuel + 1) tr tick running outNotes outTempi =
      (do
        let (delta, tr) ← liftE (read_vlq tr)
        let tick := (tick + delta) % 2 ^ 32
        let (first, tr) ← liftE tr.u8
        if first &&& 0x80 ≠ 0 then do
          let running := if first &&& 0xF0 < 0xF0 then first else running
          let (tr, outNotes, outTempi, brk) ←
            dispatchEvent tr tick first false 0 outNotes outTempi
          if brk then pure (outNotes, outTempi)
          else walkLoop fuel tr tick running outNotes outTempi
        else
          if running = 0 then .fail "Running status used before any status"
          else do
            let (tr, outNotes, outTempi, brk) ←
              dispatchEvent tr tick running true first outNotes outTempi
            if brk then pure (outNotes, outTempi)
            else walkLoop fuel tr tick running outNotes outTempi) := by
  conv_lhs => rw [walkLoop.eq_def]
  dsimp only
  rw [if_pos h]

theorem walkLoop_stop (fuel : Nat) (tr : Bytes) (tick running : Nat)
    (outNotes : List NoteEv) (outTempi : List TempoEv) (h : ¬ tr.off < tr.data.length) :
    walkLoop fuel tr tick running outNotes outTempi = .done (outNotes, outTempi) := by
  conv_lhs => rw [walkLoop.eq_def]
  dsimp only
  rw [if_neg h]

/-- Claim C3: a track body holding delta, status `0x90`, note `0x40`,
velocity `0x7F`; delta, note `0x41`, velocity `0x7F` (running status); delta,
note `0x40`, velocity `0x00` (running status, zero velocity) decodes to
exactly NoteOn(0x40), NoteOn(0x41), NoteOff(0x40) with ticks the cumulative
sums of the deltas. -/
theorem C3_running_status (d1 d2 d3 : Nat) (h1 : d1 < 128) (h2 : d2 < 128) (h3 : d3 < 128) :
    walkLoop 10 ⟨[d1, 0x90, 0x40, 0x7F, d2, 0x41, 0x7F, d3, 0x40, 0x00], 0⟩ 0 0 [] [] =
      PRes.done ([⟨d1, 0, 0x40, 0x7F, .NoteOn⟩,
                  ⟨d1 + d2, 0, 0x41, 0x7F, .NoteOn⟩,
                  ⟨d1 + d2 + d3, 0, 0x40, 0, .NoteOff⟩], []) := by
  set L : List Nat := [d1, 0x90, 0x40, 0x7F, d2, 0x41, 0x7F, d3, 0x40, 0x00] with hL
  have rv1 : read_vlq ⟨L, 0⟩ = .ok (d1, ⟨L, 1⟩) := by
    unfold read_vlq
    rw [show (4 : Nat) = 3 + 1 from rfl,
      vlq_step_last (x := d1) h1 (by simp [hL]) (by simp [hL]) 3 0]
    norm_num
  have rv2 : read_vlq ⟨L, 4⟩ = .ok (d2, ⟨L, 5⟩) := by
    unfold read_vlq
    rw [show (4 : Nat) = 3 + 1 from rfl,
      vlq_step_last (x := d2) h2 (by simp [hL]) (by simp [hL]) 3 0]
    norm_num
  have rv3 : read_vlq ⟨L, 7⟩ = .ok (d3, ⟨L, 8⟩) := by
    unfold read_vlq
    rw [show (4 : Nat) = 3 + 1 from rfl,
      vlq_step_last (x := d3) h3 (by simp [hL]) (by simp [hL]) 3 0]
    norm_num
  have hu1 : Bytes.u8 ⟨L, 1⟩ = .ok (0x90, ⟨L, 2⟩) := u8_at (by simp [hL]) (by simp [hL])
  have hu2 : Bytes.u8 ⟨L, 2⟩ = .ok (0x40, ⟨L, 3⟩) := u8_at (by simp [hL]) (by simp [hL])
  have hu3 : Bytes.u8 ⟨L, 3⟩ = .ok (0x7F, ⟨L, 4⟩) := u8_at (by simp [hL]) (by simp [hL])
  have hu4 : Bytes.u8 ⟨L, 5⟩ = .ok (0x41, ⟨L, 6⟩) := u8_at (by simp [hL]) (by simp [hL])
  have hu5 : Bytes.u8 ⟨L, 6⟩ = .ok (0x7F, ⟨L, 7⟩) := u8_at (by simp [hL]) (by simp [hL])
  have hu6 : Bytes.u8 ⟨L, 8⟩ = .ok (0x40, ⟨L, 9⟩) := u8_at (by simp [hL]) (by simp [hL])
  have hu7 : Bytes.u8 ⟨L, 9⟩ = .ok (0x00, ⟨L, 10⟩) := u8_at (by simp [hL]) (by simp [hL])
  have e1 : (0 + d1) % 2 ^ 32 = d1 := by omega
  have e2 : (d1 + d2) % 2 ^ 32 = d1 + d2 := by omega
  have e3 : (d1 + d2 + d3) % 2 ^ 32 = d1 + d2 + d3 := by omega
  rw [show (10 : Nat) = 9 + 1 from rfl,
    walkLoop_succ 9 ⟨L, 0⟩ 0 0 [] [] (by simp [hL])]
  rw [rv1]
  simp only [liftE_ok, pres_bind_done, e1]
  rw [hu1]
  simp [dispatchEvent, noteBranch, readD1, liftE_ok, pres_bind_done, pres_pure, hu2, hu3,
    show (144 : Nat) &&& 240 = 144 from rfl, show (144 : Nat) &&& 15 = 0 from rfl,
    show (144 : Nat) &&& 128 = 128 from rfl]
  rw [show (9 : Nat) = 8 + 1 from rfl,
    walkLoop_succ 8 ⟨L, 4⟩ d1 144 [⟨d1, 0, 0x40, 0x7F, .NoteOn⟩] [] (by simp [hL])]
  rw [rv2]
  simp only [liftE_ok, pres_bind_done, e2]
  rw [hu4]
  simp [dispatchEvent, noteBranch, readD1, liftE_ok, pres_bind_done, pres_pure, hu5,
    show (65 : Nat) &&& 128 = 0 from rfl, show (144 : Nat) &&& 240 = 144 from rfl,
    show (144 : Nat) &&& 15 = 0 from rfl]
  rw [show (8 : Nat) = 7 + 1 from rfl,
    walkLoop_succ 7 ⟨L, 7⟩ (d1 + d2) 144
      [⟨d1, 0, 0x40, 0x7F, .NoteOn⟩, ⟨d1 + d2, 0, 0x41, 0x7F, .NoteOn⟩] [] (by simp [hL])]
  rw [rv3]
  simp only [liftE_ok, pres_bind_done, e3]
  rw [hu6]
  simp [dispatchEvent, noteBranch, readD1, liftE_ok, pres_bind_done, pres_pure, hu7,
    show (64 : Nat) &&& 128 = 0 from rfl, show (144 : Nat) &&& 240 = 144 from rfl,
    show (144 : Nat) &&& 15 = 0 from rfl]
  rw [walkLoop_stop 7 ⟨L, 10⟩ (d1 + d2 + d3) 144 _ _ (by simp [hL])]

theorem C3_running_status_witness :
    walkLoop 10 ⟨[5, 0x90, 0x40, 0x7F, 3, 0x41, 0x7F, 2, 0x40, 0x00], 0⟩ 0 0 [] [] =
      PRes.done ([⟨5, 0, 0x40, 0x7F, .NoteOn⟩, ⟨8, 0, 0x41, 0x7F, .NoteOn⟩,
                  ⟨10, 0, 0x40, 0, .NoteOff⟩], []) := by
  have h := C3_running_status 5 3 2 (by omega) (by omega) (by omega)
  norm_num at h
  exact h

/-! ## Helper lemmas: the decode loop cannot run out of fuel -/

theorem optRead_spec (hd : Bool) (d1 : Nat) (tr : Bytes) :
    (readD1 hd d1 tr ≠ .fuelOut) ∧
    ∀ b1 tr1, readD1 hd d1 tr = .done (b1, tr1) →
      tr1.data = tr.data ∧ tr.off ≤ tr1.off := by
  unfold readD1
  cases hd
  · constructor
    · rcases hu : tr.u8 with e | ⟨b, tr2⟩ <;> simp [hu, liftE]
    · intro b1 tr1 h
      rw [if_neg (by simp)] at h
      rcases hu : tr.u8 with e | ⟨b, tr2⟩ <;> rw [hu] at h
      · simp [liftE] at h
      · simp [liftE] at h
        obtain ⟨hlt, hb, htr2⟩ := u8_ok hu
        obtain ⟨h1, h2⟩ := h
        subst h2
        subst htr2
        exact ⟨rfl, by show tr.off ≤ tr.off + 1; omega⟩
  · constructor
    · simp [pres_pure]
    · intro b1 tr1 h
      rw [if_pos rfl] at h
      simp [pres_pure] at h
      obtain ⟨h1, h2⟩ := h
      subst h2
      exact ⟨rfl, Nat.le_refl _⟩

theorem noteBranch_spec (tr : Bytes) (tick type ch : Nat) (hd : Bool) (d1 : Nat)
    (notes : List NoteEv) (tempi : List TempoEv) :
    ∀ res, noteBranch tr tick type ch hd d1 notes tempi = res →
      res ≠ .fuelOut ∧ ∀ tr' notes' tempi' brk, res = .done (tr', notes', tempi', brk) →
        tr'.data = tr.data ∧ tr.off ≤ tr'.off := by
  intro res hres
  unfold noteBranch at hres
  rcases ho : readD1 hd d1 tr with _ | e | ⟨b1, tr1⟩ <;> rw [ho] at hres <;>
    simp only [pres_bind_fail, pres_bind_done] at hres
  · exact absurd ho (optRead_spec hd d1 tr).1
  · subst hres
    exact ⟨by simp, fun tr' n' t' b h => by cases h⟩
  · obtain ⟨hod, hoo⟩ := (optRead_spec hd d1 tr).2 b1 tr1 ho
    rcases hu : tr1.u8 with e | ⟨b2, tr2⟩ <;> rw [hu] at hres <;>
      simp only [liftE_ok, liftE_error, pres_bind_fail, pres_bind_done] at hres
    · subst hres
      exact ⟨by simp, fun tr' n' t' b h => by cases h⟩
    · obtain ⟨hlt, hb, htr2⟩ := u8_ok hu
      subst htr2
      have hdata : (⟨tr1.data, tr1.off + 1⟩ : Bytes).data = tr.data := hod
      have hoff : tr.off ≤ (⟨tr1.data, tr1.off + 1⟩ : Bytes).off := by
        show tr.off ≤ tr1.off + 1; omega
      split at hres <;> [skip; split at hres] <;> rw [pres_pure] at hres <;> subst hres <;>
        exact ⟨by simp, fun tr' n' t' b h => by cases h; exact ⟨hdata, hoff⟩⟩

theorem metaBranch_spec (tr : Bytes) (tick : Nat)
    (notes : List NoteEv) (tempi : List TempoEv) :
    ∀ res, metaBranch tr tick notes tempi = res →
      res ≠ .fuelOut ∧ ∀ tr' notes' tempi' brk, res = .done (tr', notes', tempi', brk) →
        tr'.data = tr.data ∧ tr.off ≤ tr'.off := by
  intro res hres
  unfold metaBranch at hres
  rcases hu : tr.u8 with e | ⟨mt, tr1⟩ <;> rw [hu] at hres <;>
    simp only [liftE_ok, liftE_error, pres_bind_fail, pres_bind_done] at hres
  · subst hres
    exact ⟨by simp, fun tr' n' t' b h => by cases h⟩
  · obtain ⟨hlt, hb, htr1⟩ := u8_ok hu
    subst htr1
    rcases hv : read_vlq ⟨tr.data, tr.off + 1⟩ with e | ⟨mlen, tr2⟩ <;> rw [hv] at hres <;>
      simp only [liftE_ok, liftE_error, pres_bind_fail, pres_bind_done] at hres
    · subst hres
      exact ⟨by simp, fun tr' n' t' b h => by cases h⟩
    · obtain ⟨hvd, hvo1, hvo2⟩ := read_vlq_ok hv
      have hvo1' : tr.off + 1 + 1 ≤ tr2.off := hvo1
      have hvd' : tr2.data = tr.data := hvd
      split at hres
      · -- end of track, maybe skipping the declared payload
        split at hres
        · rcases hsk : tr2.skip mlen with e | tr3 <;> rw [hsk] at hres <;>
            simp only [liftE_ok, liftE_error, pres_bind_fail, pres_bind_done,
              pres_pure] at hres
          · subst hres
            exact ⟨by simp, fun tr' n' t' b h => by cases h⟩
          · obtain ⟨hsl, hsx⟩ := skip_ok hsk
            subst hsx
            subst hres
            refine ⟨by simp, fun tr' n' t' b h => ?_⟩
            cases h
            refine ⟨hvd', ?_⟩
            show tr.off ≤ tr2.off + mlen
            omega
        · simp only [pres_pure] at hres
          subst hres
          exact ⟨by simp, fun tr' n' t' b h => by cases h; exact ⟨hvd', by omega⟩⟩
      · split at hres
        · -- tempo meta: three payload bytes
          rcases hu1 : tr2.u8 with e | ⟨t0, tr3⟩ <;> rw [hu1] at hres <;>
            simp only [liftE_ok, liftE_error, pres_bind_fail, pres_bind_done] at hres
          · subst hres
            exact ⟨by simp, fun tr' n' t' b h => by cases h⟩
          · obtain ⟨hl1, hb1, he1⟩ := u8_ok hu1
            subst he1
            rcases hu2 : Bytes.u8 ⟨tr2.data, tr2.off + 1⟩ with e | ⟨t1, tr4⟩ <;>
              rw [hu2] at hres <;>
              simp only [liftE_ok, liftE_error, pres_bind_fail, pres_bind_done] at hres
            · subst hres
              exact ⟨by simp, fun tr' n' t' b h => by cases h⟩
            · obtain ⟨hl2, hb2, he2⟩ := u8_ok hu2
              subst he2
              rcases hu3 : Bytes.u8 ⟨tr2.data, tr2.off + 1 + 1⟩ with e | ⟨t2, tr5⟩ <;>
                rw [hu3] at hres <;>
                simp only [liftE_ok, liftE_error, pres_bind_fail,
                  pres_bind_done, pres_pure] at hres
              · subst hres
                exact ⟨by simp, fun tr' n' t' b h => by cases h⟩
              · obtain ⟨hl3, hb3, he3⟩ := u8_ok hu3
                subst he3
                subst hres
                refine ⟨by simp, fun tr' n' t' b h => ?_⟩
                cases h
                refine ⟨hvd', ?_⟩
                show tr.off ≤ tr2.off + 1 + 1 + 1
                omega
        · -- other meta: skip payload
          rcases hsk : tr2.skip mlen with e | tr3 <;> rw [hsk] at hres <;>
            simp only [liftE_ok, liftE_error, pres_bind_fail, pres_bind_done,
              pres_pure] at hres
          · subst hres
            exact ⟨by simp, fun tr' n' t' b h => by cases h⟩
          · obtain ⟨hsl, hsx⟩ := skip_ok hsk
            subst hsx
            subst hres
            refine ⟨by simp, fun tr' n' t' b h => ?_⟩
            cases h
            refine ⟨hvd', ?_⟩
            show tr.off ≤ tr2.off + mlen
            omega

theorem sysexBranch_spec (tr : Bytes)
    (notes : List NoteEv) (tempi : List TempoEv) :
    ∀ res, sysexBranch tr notes tempi = res →
      res ≠ .fuelOut ∧ ∀ tr' notes' tempi' brk, res = .done (tr', notes', tempi', brk) →
        tr'.data = tr.data ∧ tr.off ≤ tr'.off := by
  intro res hres
  unfold sysexBranch at hres
  rcases hv : read_vlq tr with e | ⟨slen, tr1⟩ <;> rw [hv] at hres <;>
    simp only [liftE_ok, liftE_error, pres_bind_fail, pres_bind_done] at hres
  · subst hres
    exact ⟨by simp, fun tr' n' t' b h => by cases h⟩
  · obtain ⟨hvd, hvo1, hvo2⟩ := read_vlq_ok hv
    rcases hsk : tr1.skip slen with e | tr2 <;> rw [hsk] at hres <;>
      simp only [liftE_ok, liftE_error, pres_bind_fail, pres_bind_done,
        pres_pure] at hres
    · subst hres
      exact ⟨by simp, fun tr' n' t' b h => by cases h⟩
    · obtain ⟨hsl, hsx⟩ := skip_ok hsk
      subst hsx
      subst hres
      refine ⟨by simp, fun tr' n' t' b h => ?_⟩
      cases h
      refine ⟨hvd, ?_⟩
      show tr.off ≤ tr1.off + slen
      omega

theorem dispatchEvent_spec (tr : Bytes) (tick status : Nat) (hd : Bool) (d1 : Nat)
    (notes : List NoteEv) (tempi : List TempoEv) :
    ∀ res, dispatchEvent tr tick status hd d1 notes tempi = res →
      res ≠ .fuelOut ∧ ∀ tr' notes' tempi' brk, res = .done (tr', notes', tempi', brk) →
        tr'.data = tr.data ∧ tr.off ≤ tr'.off := by
  intro res hres
  unfold dispatchEvent at hres
  by_cases hA : status &&& 0xF0 = 0x80 ∨ status &&& 0xF0 = 0x90 ∨ status &&& 0xF0 = 0xA0 ∨
      status &&& 0xF0 = 0xB0 ∨ status &&& 0xF0 = 0xE0
  · rw [if_pos hA] at hres
    exact noteBranch_spec tr tick _ _ hd d1 notes tempi res hres
  · rw [if_neg hA] at hres
    by_cases hB : status &&& 0xF0 = 0xC0 ∨ status &&& 0xF0 = 0xD0
    · rw [if_pos hB] at hres
      rcases ho : readD1 hd d1 tr with _ | e | ⟨b1, tr1⟩ <;> rw [ho] at hres <;>
        simp only [pres_bind_fail, pres_bind_done, pres_pure] at hres
      · exact absurd ho (optRead_spec hd d1 tr).1
      · subst hres
        exact ⟨by simp, fun tr' n' t' b h => by cases h⟩
      · obtain ⟨hod, hoo⟩ := (optRead_spec hd d1 tr).2 b1 tr1 ho
        subst hres
        exact ⟨by simp, fun tr' n' t' b h => by cases h; exact ⟨hod, hoo⟩⟩
    · rw [if_neg hB] at hres
      by_cases hC : status = 0xFF
      · rw [if_pos hC] at hres
        exact metaBranch_spec tr tick notes tempi res hres
      · rw [if_neg hC] at hres
        by_cases hD : status = 0xF0 ∨ status = 0xF7
        · rw [if_pos hD] at hres
          exact sysexBranch_spec tr notes tempi res hres
        · rw [if_neg hD] at hres
          subst hres
          exact ⟨by simp, fun tr' n' t' b h => by cases h⟩

theorem walkLoop_no_fuelOut : ∀ (fuel : Nat) (tr : Bytes) (tick running : Nat)
    (notes : List NoteEv) (tempi : List TempoEv),
    tr.data.length - tr.off ≤ fuel →
    walkLoop fuel tr tick running notes tempi ≠ .fuelOut := by
  intro fuel
  induction fuel with
  | zero =>
    intro tr tick running notes tempi hle
    rw [walkLoop_stop 0 tr tick running notes tempi (by omega)]
    simp
  | succ n ih =>
    intro tr tick running notes tempi hle
    by_cases hlt : tr.off < tr.data.length
    · rw [walkLoop_succ n tr tick running notes tempi hlt]
      intro hbad
      rcases hv : read_vlq tr with e | ⟨delta, tr1⟩ <;> rw [hv] at hbad <;>
        simp only [liftE_ok, liftE_error, pres_bind_fail, pres_bind_done] at hbad
      · cases hbad
      · obtain ⟨hd1, ho1, ho2⟩ := read_vlq_ok hv
        rcases hu : tr1.u8 with e | ⟨first, tr2⟩ <;> rw [hu] at hbad <;>
          simp only [liftE_ok, liftE_error, pres_bind_fail, pres_bind_done] at hbad
        · cases hbad
        · obtain ⟨hul, hub, hur⟩ := u8_ok hu
          subst hur
          by_cases hhi : first &&& 0x80 = 0
          · rw [if_neg (by simp [hhi])] at hbad
            by_cases hrun : running = 0
            · rw [if_pos hrun] at hbad
              cases hbad
            · rw [if_neg hrun] at hbad
              rcases hdp : dispatchEvent ⟨tr1.data, tr1.off + 1⟩ ((tick + delta) % 2 ^ 32)
                  running true first notes tempi with _ | e | ⟨tr3, n3, t3, brk⟩ <;>
                rw [hdp] at hbad <;>
                simp only [pres_bind_fuelOut, pres_bind_fail, pres_bind_done] at hbad
              · exact (dispatchEvent_spec _ _ _ _ _ _ _ .fuelOut hdp).1 rfl
              · cases hbad
              · obtain ⟨hdd, hdo⟩ :=
                  (dispatchEvent_spec _ _ _ _ _ _ _ _ hdp).2 tr3 n3 t3 brk rfl
                by_cases hbrk : brk = true
                · rw [if_pos hbrk] at hbad
                  rw [pres_pure] at hbad
                  cases hbad
                · rw [if_neg hbrk] at hbad
                  refine absurd hbad (ih tr3 _ _ n3 t3 ?_)
                  have hlen3 : tr3.data.length = tr.data.length := by
                    have h1 : tr3.data = tr1.data := hdd
                    rw [h1, hd1]
                  have hoff2 : tr1.off + 1 ≤ tr3.off := hdo
                  omega
          · rw [if_pos (by simpa using hhi)] at hbad
            rcases hdp : dispatchEvent ⟨tr1.data, tr1.off + 1⟩ ((tick + delta) % 2 ^ 32)
                first false 0 notes tempi with _ | e | ⟨tr3, n3, t3, brk⟩ <;>
              rw [hdp] at hbad <;>
              simp only [pres_bind_fuelOut, pres_bind_fail, pres_bind_done] at hbad
            · exact (dispatchEvent_spec _ _ _ _ _ _ _ .fuelOut hdp).1 rfl
            · cases hbad
            · obtain ⟨hdd, hdo⟩ :=
                (dispatchEvent_spec _ _ _ _ _ _ _ _ hdp).2 tr3 n3 t3 brk rfl
              by_cases hbrk : brk = true
              · rw [if_pos hbrk] at hbad
                rw [pres_pure] at hbad
                cases hbad
              · rw [if_neg hbrk] at hbad
                refine absurd hbad (ih tr3 _ _ n3 t3 ?_)
                have hlen3 : tr3.data.length = tr.data.length := by
                  have h1 : tr3.data = tr1.data := hdd
                  rw [h1, hd1]
                have hoff2 : tr1.off + 1 ≤ tr3.off := hdo
                omega
    · rw [walkLoop_stop (n + 1) tr tick running notes tempi hlt]
      simp

theorem walk_one_track_no_fuelOut (file : List Nat) (r : Bytes)
    (notes : List NoteEv) (tempi : List TempoEv) :
    walk_one_track file r notes tempi ≠ .fuelOut := by
  intro hbad
  unfold walk_one_track at hbad
  rcases h32 : r.be32 with e | ⟨id, r1⟩ <;> rw [h32] at hbad <;>
    simp only [liftE_ok, liftE_error, pres_bind_fail, pres_bind_done] at hbad
  · cases hbad
  · by_cases hid : id = 0x4D54726B
    · rw [if_neg (by simp [hid])] at hbad
      rcases h32b : r1.be32 with e | ⟨len, r2⟩ <;> rw [h32b] at hbad <;>
        simp only [liftE_ok, liftE_error, pres_bind_fail, pres_bind_done] at hbad
      · cases hbad
      · rcases hms : make_slice file r2.off len with e | tr <;> rw [hms] at hbad <;>
          simp only [liftE_ok, liftE_error, pres_bind_fail, pres_bind_done] at hbad
        · cases hbad
        · rcases hsk : r2.skip len with e | r3 <;> rw [hsk] at hbad <;>
            simp only [liftE_ok, liftE_error, pres_bind_fail, pres_bind_done] at hbad
          · cases hbad
          · rcases hw : walkLoop tr.data.length tr 0 0 notes tempi with _ | e | ⟨ns, ts⟩ <;>
              rw [hw] at hbad <;>
              simp only [pres_bind_fuelOut, pres_bind_fail, pres_bind_done,
                pres_pure] at hbad
            · exact walkLoop_no_fuelOut _ tr 0 0 notes tempi (by omega) hw
            · cases hbad
            · cases hbad
    · rw [if_pos (by simpa using hid)] at hbad
      cases hbad

theorem tracksLoop_succ (file : List Nat) (n : Nat) (r : Bytes)
    (notes : List NoteEv) (tempi : List TempoEv) :
    tracksLoop file (n + 1) r notes tempi =
      (do
        let (r, notes, tempi) ← walk_one_track file r notes tempi
        tracksLoop file n r notes tempi) := by
  conv_lhs => rw [tracksLoop.eq_def]

theorem tracksLoop_no_fuelOut (file : List Nat) : ∀ (n : Nat) (r : Bytes)
    (notes : List NoteEv) (tempi : List TempoEv),
    tracksLoop file n r notes tempi ≠ .fuelOut := by
  intro n
  induction n with
  | zero =>
    intro r notes tempi hbad
    rw [show tracksLoop file 0 r notes tempi = .done (notes, tempi) from rfl] at hbad
    cases hbad
  | succ m ih =>
    intro r notes tempi hbad
    rw [tracksLoop_succ] at hbad
    rcases hw : walk_one_track file r notes tempi with _ | e | ⟨r2, ns, ts⟩ <;>
      rw [hw] at hbad <;>
      simp only [pres_bind_fuelOut, pres_bind_fail, pres_bind_done] at hbad
    · exact walk_one_track_no_fuelOut file r notes tempi hw
    · cases hbad
    · exact ih r2 ns ts hbad

theorem parse_smf_no_fuelOut (bytes : List Nat) : parse_smf bytes ≠ .fuelOut := by
  intro hbad
  unfold parse_smf at hbad
  rcases hh : parse_header ⟨bytes, 0⟩ with e | ⟨header, r⟩ <;> rw [hh] at hbad <;>
    simp only [liftE_ok, liftE_error, pres_bind_fail, pres_bind_done] at hbad
  · cases hbad
  · rcases ht : tracksLoop bytes header.nTracks r [] [] with _ | e | ⟨ns, ts⟩ <;>
      rw [ht] at hbad <;>
      simp only [pres_bind_fuelOut, pres_bind_fail, pres_bind_done, pres_pure] at hbad
    · exact tracksLoop_no_fuelOut bytes header.nTracks r [] [] ht
    · cases hbad
    · cases hbad

/-- Claim C10: decoding terminates on every finite buffer.  The per-track
walk with fuel at least the remaining byte count never exhausts its fuel
(each iteration consumes at least the one byte of the delta-time VLQ or
fails), and consequently `parse_smf` always ends in a Song or an error,
never in the fuel-out marker. -/
theorem C10_parse_terminates :
    (∀ (fuel : Nat) (tr : Bytes) (tick running : Nat)
        (notes : List NoteEv) (tempi : List TempoEv),
      tr.data.length - tr.off ≤ fuel →
      walkLoop fuel tr tick running notes tempi ≠ .fuelOut) ∧
    ∀ bytes : List Nat, parse_smf bytes ≠ .fuelOut :=
  ⟨walkLoop_no_fuelOut, parse_smf_no_fuelOut⟩

/-- Witness for C10: the loop-level clause at a concrete two-byte track
slice, with the fuel bound discharged by computation. -/
theorem C10_parse_terminates_witness :
    walkLoop 2 ⟨[0x00, 0xF4], 0⟩ 0 0 [] [] ≠ PRes.fuelOut ∧
    parse_smf [] ≠ PRes.fuelOut :=
  ⟨C10_parse_terminates.1 2 ⟨[0x00, 0xF4], 0⟩ 0 0 [] [] (by decide),
   C10_parse_terminates.2 []⟩

/-- Claim C4: `parse_smf` always yields a complete Song or an error and
never a partial result; bad magic bytes, a truncated fixed read, a header
length other than 6, a fixed or VLQ read past the end of the track bytes,
an unsupported status byte such as 0xF4, and running status before any
status byte each abort the parse with an error. -/
theorem C4_parse_errors :
    (∀ bytes : List Nat,
      (∃ s, parse_smf bytes = .done s) ∨ (∃ e, parse_smf bytes = .fail e)) ∧
    parse_smf [0, 0, 0, 0] = .fail "Not a MIDI file (missing MThd)" ∧
    parse_smf [0x4D, 0x54, 0x68, 0x64] = .fail "EOF while reading be32" ∧
    parse_smf [0x4D, 0x54, 0x68, 0x64, 0, 0, 0, 7] =
      .fail "Header chunk length must be 6" ∧
    parse_smf [0x4D, 0x54, 0x68, 0x64, 0, 0, 0, 6, 0, 0, 0, 1, 0x01, 0xE0,
      0x4D, 0x54, 0x72, 0x6B, 0, 0, 0, 1, 0x80] = .fail "EOF while reading u8" ∧
    parse_smf [0x4D, 0x54, 0x68, 0x64, 0, 0, 0, 6, 0, 0, 0, 1, 0x01, 0xE0,
      0x4D, 0x54, 0x72, 0x6B, 0, 0, 0, 2, 0x00, 0xF4] =
      .fail "Unsupported or malformed status byte" ∧
    parse_smf [0x4D, 0x54, 0x68, 0x64, 0, 0, 0, 6, 0, 0, 0, 1, 0x01, 0xE0,
      0x4D, 0x54, 0x72, 0x6B, 0, 0, 0, 2, 0x00, 0x40] =
      .fail "Running status used before any status" := by
  refine ⟨?_, rfl, rfl, rfl, rfl, rfl, rfl⟩
  intro bytes
  rcases hp : parse_smf bytes with _ | e | sng
  · exact absurd hp (parse_smf_no_fuelOut bytes)
  · exact Or.inr ⟨e, rfl⟩
  · exact Or.inl ⟨sng, rfl⟩

/-! ## Helper lemmas: tempo map -/

theorem build_segments_go_lb (ppqn : Nat) : ∀ (tempi : List TempoEv) (lastTick : Nat)
    (cur accSec : ℚ), ∀ s ∈ build_segments_go ppqn tempi lastTick cur accSec,
    lastTick ≤ s.startTick := by
  intro tempi
  induction tempi with
  | nil =>
    intro lastTick cur accSec s hs
    simp [build_segments_go] at hs
  | cons t rest ih =>
    intro lastTick cur accSec s hs
    rw [build_segments_go] at hs
    split at hs
    · exact ih lastTick cur accSec s hs
    · rename_i hgt
      rcases List.mem_cons.mp hs with h | h
      · rw [h]
        show lastTick ≤ t.tick
        omega
      · have := ih t.tick _ _ s h
        omega

theorem build_segments_go_sorted (ppqn : Nat) : ∀ (tempi : List TempoEv) (lastTick : Nat)
    (cur accSec : ℚ),
    List.Pairwise (fun a b : TempoSeg => a.startTick ≤ b.startTick)
      (build_segments_go ppqn tempi lastTick cur accSec) := by
  intro tempi
  induction tempi with
  | nil =>
    intro lastTick cur accSec
    simp [build_segments_go]
  | cons t rest ih =>
    intro lastTick cur accSec
    rw [build_segments_go]
    split
    · exact ih lastTick cur accSec
    · refine List.Pairwise.cons ?_ (ih t.tick _ _)
      intro s hs
      exact build_segments_go_lb ppqn rest t.tick _ _ s hs

theorem build_segments_tick0 :
    build_segments 480 [⟨0, 600000⟩] = [⟨0, 0, 500000⟩, ⟨0, 0, 600000⟩] := by
  unfold build_segments
  norm_num [build_segments_go, u32sub]

theorem build_segments_960 :
    build_segments 480 [⟨960, 600000⟩] = [⟨0, 0, 500000⟩, ⟨960, 1, 600000⟩] := by
  unfold build_segments
  norm_num [build_segments_go, u32sub]

/-- Claim C1 (amended): for every Song, any tempo map built by
`build_tempo_map` has a non-empty segment list whose first segment is
exactly the synthetic default segment (tick 0, 0 s, 500000 µs/quarter), and
whose start ticks are non-decreasing.  (Strict ascent fails when the Song
holds a tempo event at tick 0 or two tempo events with equal ticks; see the
counterexample.) -/
theorem C1_tempo_map_invariants :
    ∀ (song : Song) (m : TempoMap), build_tempo_map song m →
      m.segments ≠ [] ∧ m.segments.head? = some ⟨0, 0, 500000⟩ ∧
      nondecTicks m.segments := by
  intro song m hm
  obtain ⟨hppqn, sorted, hsort, hsegs⟩ := hm
  rw [hsegs]
  unfold build_segments
  refine ⟨by simp, rfl, ?_⟩
  unfold nondecTicks
  refine List.Pairwise.cons ?_ (build_segments_go_sorted _ sorted 0 500000 0)
  intro s hs
  exact Nat.zero_le _

/-- Witness for the amended C1 at the concrete `songT0`. -/
theorem C1_tempo_map_invariants_witness :
    mapT0.segments ≠ [] ∧ mapT0.segments.head? = some ⟨0, 0, 500000⟩ ∧
    nondecTicks mapT0.segments :=
  C1_tempo_map_invariants songT0 mapT0
    ⟨rfl, [⟨0, 600000⟩], ⟨List.Perm.refl _, by simp⟩, rfl⟩

/-- Claim C1 as stated is false: a Song with a tempo event exactly at tick 0
produces a second segment at tick 0 on top of the synthetic default segment,
so the built segment list is not strictly ascending by startTick. -/
theorem C1_strict_ascent_counterexample :
    build_tempo_map songT0 mapT0 ∧ ¬ strictAscTicks mapT0.segments := by
  constructor
  · exact ⟨rfl, [⟨0, 600000⟩], ⟨List.Perm.refl _, by simp⟩, rfl⟩
  · intro h
    unfold strictAscTicks at h
    have : (0 : Nat) < 0 := by
      have hh := h
      rw [show mapT0.segments = [⟨0, 0, 500000⟩, ⟨0, 0, 600000⟩] from build_segments_tick0] at hh
      exact List.rel_of_pairwise_cons hh (List.mem_singleton.mpr rfl)
    omega

/-- Claim C6: for the Song with ppqn 480 and single tempo event
(tick 960, 600000 µs/q), the built map is exactly
[(0, 0 s, 500000), (960, 1 s, 600000)], `ticks_to_seconds 1920` equals 2.2
seconds (= 11/5 exactly), and any tick past the final segment extrapolates
linearly with that segment's tempo. -/
theorem C6_tempo_map_values :
    ∀ m : TempoMap, build_tempo_map song960 m →
      m.segments = [⟨0, 0, 500000⟩, ⟨960, 1, 600000⟩] ∧
      ticks_to_seconds 1920 m = 11 / 5 ∧
      ∀ t : Nat, 960 ≤ t → t < 2 ^ 32 →
        ticks_to_seconds t m =
          1 + ((t : ℚ) - 960) / 480 * (600000 * (1 / 1000000)) := by
  intro m hm
  obtain ⟨hppqn, sorted, ⟨hperm, hsorted⟩, hsegs⟩ := hm
  have hs : sorted = [⟨960, 600000⟩] := List.perm_singleton.mp hperm
  subst hs
  have hsegs' : m.segments = [⟨0, 0, 500000⟩, ⟨960, 1, 600000⟩] := by
    rw [hsegs]
    exact build_segments_960
  have hp : m.ppqn = 480 := hppqn
  cases m with
  | mk p segs =>
    simp only at hp hsegs'
    subst hp
    subst hsegs'
    constructor
    · rfl
    constructor
    · show ticks_to_seconds 1920 ⟨480, [⟨0, 0, 500000⟩, ⟨960, 1, 600000⟩]⟩ = 11 / 5
      unfold ticks_to_seconds
      norm_num [findSeg, u32sub]
    intro t h960 hlt
    have hu : u32sub t 960 = t - 960 := by unfold u32sub; omega
    unfold ticks_to_seconds
    simp only [findSeg, if_pos (Nat.zero_le t), if_pos h960, hu]
    rw [Nat.cast_sub h960]
    norm_num

/-- Witness for C6 at the concrete built map. -/
theorem C6_tempo_map_values_witness :
    ticks_to_seconds 1920 ⟨480, [⟨0, 0, 500000⟩, ⟨960, 1, 600000⟩]⟩ = 11 / 5 :=
  (C6_tempo_map_values ⟨480, [⟨0, 0, 500000⟩, ⟨960, 1, 600000⟩]⟩
    ⟨rfl, [⟨960, 600000⟩], ⟨List.Perm.refl _, by simp⟩, build_segments_960.symm⟩).2.1

/-- Claim C9 as stated is false: the copy is sorted with `std::sort`, whose
contract does not include stability, and for two tempo events with equal
ticks the swapped order is also a valid `std::sort` result. -/
theorem C9_stability_counterexample :
    cpp_sort_spec [⟨10, 100⟩, ⟨10, 200⟩] [⟨10, 200⟩, ⟨10, 100⟩] ∧
    ([⟨10, 200⟩, ⟨10, 100⟩] : List TempoEv) ≠ [⟨10, 100⟩, ⟨10, 200⟩] := by
  constructor
  · exact ⟨List.Perm.swap _ _ _, by simp⟩
  · simp

/-- Claim C9 (amended): the copy of the tempo events is a permutation of
the input sorted non-decreasingly by tick (such a copy always exists), and
it is uniquely determined when all ticks are distinct; equal-tick events
need not keep their input order because `std::sort` is not stable. -/
theorem C9_sort_contract :
    (∀ l : List TempoEv, ∃ out, cpp_sort_spec l out) ∧
    (∀ (l out1 out2 : List TempoEv), (l.map TempoEv.tick).Nodup →
      cpp_sort_spec l out1 → cpp_sort_spec l out2 → out1 = out2) := by
  constructor
  · intro l
    refine ⟨List.insertionSort (fun a b => a.tick ≤ b.tick) l, ?_, ?_⟩
    · exact List.perm_insertionSort _ l
    · haveI : IsTotal TempoEv (fun a b => a.tick ≤ b.tick) := ⟨fun a b => Nat.le_total _ _⟩
      haveI : IsTrans TempoEv (fun a b => a.tick ≤ b.tick) :=
        ⟨fun a b c hab hbc => Nat.le_trans hab hbc⟩
      exact List.sorted_insertionSort _ l
  · intro l out1 out2 hnd h1 h2
    have hperm : out1.Perm out2 := h1.1.trans h2.1.symm
    have hnd1 : (out1.map TempoEv.tick).Nodup := ((h1.1.map TempoEv.tick).nodup_iff).mpr hnd
    have hnd2 : (out2.map TempoEv.tick).Nodup := ((h2.1.map TempoEv.tick).nodup_iff).mpr hnd
    have hne1 : List.Pairwise (fun a b : TempoEv => a.tick ≠ b.tick) out1 :=
      List.pairwise_map.mp hnd1
    have hne2 : List.Pairwise (fun a b : TempoEv => a.tick ≠ b.tick) out2 :=
      List.pairwise_map.mp hnd2
    have hs1 : List.Pairwise (fun a b : TempoEv => a.tick < b.tick ∨ a = b) out1 :=
      (h1.2.and hne1).imp fun h => Or.inl (Nat.lt_of_le_of_ne h.1 h.2)
    have hs2 : List.Pairwise (fun a b : TempoEv => a.tick < b.tick ∨ a = b) out2 :=
      (h2.2.and hne2).imp fun h => Or.inl (Nat.lt_of_le_of_ne h.1 h.2)
    haveI : IsAntisymm TempoEv (fun a b => a.tick < b.tick ∨ a = b) := ⟨by
      intro a b hab hba
      rcases hab with h | h
      · rcases hba with h' | h'
        · omega
        · exact h'.symm
      · exact h⟩
    exact List.eq_of_perm_of_sorted hperm hs1 hs2

/-- Witness for the amended C9: existence at one list, uniqueness applied at
a two-element distinct-tick input. -/
theorem C9_sort_contract_witness :
    (∃ out, cpp_sort_spec [⟨10, 100⟩, ⟨10, 200⟩] out) ∧
    ([⟨1, 7⟩, ⟨2, 5⟩] : List TempoEv) = [⟨1, 7⟩, ⟨2, 5⟩] :=
  ⟨C9_sort_contract.1 [⟨10, 100⟩, ⟨10, 200⟩],
   C9_sort_contract.2 [⟨2, 5⟩, ⟨1, 7⟩] [⟨1, 7⟩, ⟨2, 5⟩] [⟨1, 7⟩, ⟨2, 5⟩]
     (by decide) ⟨List.Perm.swap _ _ _, by decide⟩ ⟨List.Perm.swap _ _ _, by decide⟩⟩

/-! ## Helper lemmas: schedule -/

theorem perm_two {α : Type} {x y : α} : ∀ {l : List α}, l.Perm [x, y] →
    l = [x, y] ∨ l = [y, x] := by
  intro l h
  have hlen : l.length = 2 := by simpa using h.length_eq
  match l, hlen with
  | [a, b], _ =>
    have ha : a = x ∨ a = y := by
      have := h.subset (show a ∈ [a, b] by simp)
      simpa using this
    rcases ha with rfl | rfl
    · left
      have hb := h.cons_inv
      have : b = y := by simpa using List.perm_singleton.mp hb
      rw [this]
    · right
      have h2 : List.Perm (a :: [b]) (a :: [x]) := h.trans (List.Perm.swap a x [])
      have hb := h2.cons_inv
      have : b = x := by simpa using List.perm_singleton.mp hb
      rw [this]

theorem sOn2_eval : sOn2 = ⟨0, 2, 60, 100, true⟩ := by
  unfold sOn2 toScheduled mapD nOn2
  norm_num [ticks_to_seconds, build_segments, build_segments_go, findSeg, u32sub]

theorem sOff1_eval : sOff1 = ⟨0, 1, 60, 0, false⟩ := by
  unfold sOff1 toScheduled mapD nOff1
  norm_num [ticks_to_seconds, build_segments, build_segments_go, findSeg, u32sub]
  decide

/-- Claim C2: `build_schedule` maps every NoteEv to one ScheduledEvent (so
the output length equals the note count) and yields a sequence sorted by
the comparator (time, then NoteOff before NoteOn, then channel, then note):
no later event compares before an earlier one, and at equal times every
NoteOn is preceded by all coincident NoteOffs.  For the two-event Songs with
a NoteOn on channel 2 and a NoteOff on channel 1 at the same time, in either
input order, the schedule is exactly [NoteOff, NoteOn]. -/
theorem C2_build_schedule_spec :
    (∀ (song : Song) (tempo : TempoMap) (evs : List ScheduledEvent),
      build_schedule song tempo evs → evs.length = song.notes.length) ∧
    (∀ (song : Song) (tempo : TempoMap) (evs : List ScheduledEvent),
      build_schedule song tempo evs →
      ∀ (i j : Fin evs.length), (i : Nat) < (j : Nat) →
        (evs.get i).tSec = (evs.get j).tSec →
        (evs.get j).isOn = false → (evs.get i).isOn = false) ∧
    (∀ evs, build_schedule songPairA mapD evs → evs = [sOff1, sOn2]) ∧
    (∀ evs, build_schedule songPairB mapD evs → evs = [sOff1, sOn2]) := by
  refine ⟨?_, ?_, ?_, ?_⟩
  · intro song tempo evs h
    rw [h.1.length_eq]
    exact List.length_map _ _
  · intro song tempo evs h i j hij heq hoff
    have hp := (List.pairwise_iff_get.mp h.2) i j hij
    by_contra hb
    cases hon : (evs.get i).isOn
    · exact hb hon
    · simp only [List.get_eq_getElem] at heq hoff hon
      simp [evLt, heq, hoff, hon] at hp
  · intro evs h
    obtain ⟨hperm, hsort⟩ := h
    have hmap : songPairA.notes.map (toScheduled mapD) = [sOn2, sOff1] := rfl
    rw [hmap] at hperm
    rcases perm_two hperm with rfl | rfl
    · exfalso
      have hrel := List.rel_of_pairwise_cons hsort (show sOff1 ∈ [sOff1] by simp)
      rw [sOn2_eval, sOff1_eval] at hrel
      exact absurd hrel (by decide)
    · rfl
  · intro evs h
    obtain ⟨hperm, hsort⟩ := h
    have hmap : songPairB.notes.map (toScheduled mapD) = [sOff1, sOn2] := rfl
    rw [hmap] at hperm
    rcases perm_two hperm with rfl | rfl
    · rfl
    · exfalso
      have hrel := List.rel_of_pairwise_cons hsort (show sOff1 ∈ [sOff1] by simp)
      rw [sOn2_eval, sOff1_eval] at hrel
      exact absurd hrel (by decide)

/-- Witness for C2: the built schedule for the concrete two-event Song. -/
theorem C2_build_schedule_spec_witness :
    ([sOff1, sOn2] : List ScheduledEvent) = [sOff1, sOn2] ∧
    ([sOff1, sOn2] : List ScheduledEvent).length = songPairA.notes.length := by
  have hsorted : schedSorted [sOff1, sOn2] := by
    unfold schedSorted
    refine List.Pairwise.cons ?_ (by simp)
    intro b hb
    rw [show b = sOn2 from by simpa using hb, sOn2_eval, sOff1_eval]
    decide
  have hrel : build_schedule songPairA mapD [sOff1, sOn2] :=
    ⟨List.Perm.swap _ _ _, hsorted⟩
  exact ⟨C2_build_schedule_spec.2.2.1 [sOff1, sOn2] hrel,
    C2_build_schedule_spec.1 songPairA mapD [sOff1, sOn2] hrel⟩

/-! ## Helper lemmas: audio callback -/

theorem takeWhile_eq_take {α : Type} (p : α → Bool) :
    ∀ l : List α, l.takeWhile p = l.take (l.takeWhile p).length := by
  intro l
  induction l with
  | nil => rfl
  | cons a l ih =>
    by_cases hp : p a
    · simp only [List.takeWhile_cons_of_pos hp, List.length_cons, List.take_succ_cons]
      rw [← ih]
    · simp [List.takeWhile_cons_of_neg hp]

theorem timeSorted_takeWhile_filter (c : ℚ) :
    ∀ l : List ScheduledEvent, timeSorted l →
      l.takeWhile (fun e => decide (e.tSec ≤ c)) =
        l.filter (fun e => decide (e.tSec ≤ c)) := by
  intro l
  induction l with
  | nil => intro _; rfl
  | cons a l ih =>
    intro hs
    have hs' : timeSorted l := (List.pairwise_cons.mp hs).2
    by_cases hp : a.tSec ≤ c
    · rw [List.takeWhile_cons_of_pos (by simpa using hp),
        List.filter_cons_of_pos (by simpa using hp), ih hs']
    · rw [List.takeWhile_cons_of_neg (by simpa using hp),
        List.filter_cons_of_neg (by simpa using hp)]
      symm
      rw [List.filter_eq_nil_iff]
      intro b hb
      have hab := (List.pairwise_cons.mp hs).1 b hb
      simp only [decide_eq_true_eq]
      intro hbc
      exact hp (le_trans hab hbc)

theorem timeSorted_takeWhile_bound (c : ℚ) :
    ∀ l : List ScheduledEvent, timeSorted l →
      ∀ k (hk : k < l.length),
        (l.takeWhile (fun e => decide (e.tSec ≤ c))).length ≤ k →
        c < (l.get ⟨k, hk⟩).tSec := by
  intro l
  induction l with
  | nil =>
    intro _ k hk
    simp at hk
  | cons a l ih =>
    intro hs k hk hlen
    have hs' : timeSorted l := (List.pairwise_cons.mp hs).2
    by_cases hp : a.tSec ≤ c
    · rw [List.takeWhile_cons_of_pos (by simpa using hp)] at hlen
      match k, hk with
      | k' + 1, hk =>
        simp only [List.length_cons, Nat.add_le_add_iff_right] at hlen
        have := ih hs' k' (by simpa using hk) hlen
        simpa using this
    · have hca : c < a.tSec := not_le.mp hp
      match k, hk with
      | 0, _ => simpa using hca
      | k' + 1, hk =>
        have hk' : k' < l.length := by simpa using hk
        have hb : a.tSec ≤ (l.get ⟨k', hk'⟩).tSec :=
          (List.pairwise_cons.mp hs).1 _ (l.get_mem _ _)
        have : c < (l.get ⟨k', hk'⟩).tSec := lt_of_lt_of_le hca hb
        simpa using this

theorem runCallbacks_take (evs : List ScheduledEvent) (sr : Nat) :
    ∀ (reqs : List Nat) (st : CBState), st.nextIndex ≤ evs.length →
      st.nextIndex ≤ (runCallbacks evs sr reqs st).1.nextIndex ∧
      (runCallbacks evs sr reqs st).1.nextIndex ≤ evs.length ∧
      (runCallbacks evs sr reqs st).2 =
        (evs.drop st.nextIndex).take
          ((runCallbacks evs sr reqs st).1.nextIndex - st.nextIndex) := by
  intro reqs
  induction reqs with
  | nil =>
    intro st hst
    exact ⟨Nat.le_refl _, hst, by simp [runCallbacks]⟩
  | cons fc rest ih =>
    intro st hst
    have hstep : data_callback_step evs st fc sr =
        (⟨st.nextIndex +
            ((evs.drop st.nextIndex).takeWhile
              (fun e => decide (e.tSec ≤ st.timeSec + (fc : ℚ) / (sr : ℚ)))).length,
          st.timeSec + (fc : ℚ) / (sr : ℚ)⟩,
         (evs.drop st.nextIndex).takeWhile
           (fun e => decide (e.tSec ≤ st.timeSec + (fc : ℚ) / (sr : ℚ)))) := rfl
    have htwlen :
        ((evs.drop st.nextIndex).takeWhile
          (fun e => decide (e.tSec ≤ st.timeSec + (fc : ℚ) / (sr : ℚ)))).length ≤
          evs.length - st.nextIndex := by
      calc ((evs.drop st.nextIndex).takeWhile _).length
          ≤ (evs.drop st.nextIndex).length := (List.takeWhile_sublist _).length_le
        _ = evs.length - st.nextIndex := List.length_drop _ _
    have hrun : runCallbacks evs sr (fc :: rest) st =
        ((runCallbacks evs sr rest (data_callback_step evs st fc sr).1).1,
         (data_callback_step evs st fc sr).2 ++
           (runCallbacks evs sr rest (data_callback_step evs st fc sr).1).2) := rfl
    rw [hrun, hstep]
    obtain ⟨ih1, ih2, ih3⟩ := ih ⟨st.nextIndex +
        ((evs.drop st.nextIndex).takeWhile
          (fun e => decide (e.tSec ≤ st.timeSec + (fc : ℚ) / (sr : ℚ)))).length,
        st.timeSec + (fc : ℚ) / (sr : ℚ)⟩ (by simp; omega)
    simp only at ih1 ih2 ih3 ⊢
    refine ⟨by omega, ih2, ?_⟩
    rw [ih3]
    set tw := (evs.drop st.nextIndex).takeWhile
      (fun e => decide (e.tSec ≤ st.timeSec + (fc : ℚ) / (sr : ℚ))) with htw
    set F := (runCallbacks evs sr rest
      ⟨st.nextIndex + tw.length, st.timeSec + (fc : ℚ) / (sr : ℚ)⟩).1.nextIndex with hF
    have hdd : evs.drop (st.nextIndex + tw.length) =
        (evs.drop st.nextIndex).drop tw.length := by
      rw [List.drop_drop, Nat.add_comm]
    rw [hdd]
    have hsplit : F - st.nextIndex = tw.length + (F - (st.nextIndex + tw.length)) := by
      omega
    rw [hsplit, List.take_add]
    congr 1
    exact takeWhile_eq_take _ _

/-- Claim C8: each audio-callback invocation with window `[t0, t1]`
(`t1 = t0 + frameCount / sampleRate`) dispatches, in cursor order, exactly
the not-yet-dispatched scheduled events with `timeSeconds ≤ t1` (for a
time-sorted schedule), every dispatched event lies within its buffer's
window, the cursor and the clock never decrease and the clock is set to
`t1`; over any sequence of invocations from cursor 0 and clock 0 the
dispatched events form exactly the cursor-prefix of the schedule (each event
delivered at most once, in order), and after a step every undispatched event
lies strictly beyond the new clock. -/
theorem C8_callback_spec :
    (∀ (evs : List ScheduledEvent) (st : CBState) (fc sr : Nat), timeSorted evs →
      (data_callback_step evs st fc sr).2 =
        (evs.drop st.nextIndex).filter
          (fun e => decide (e.tSec ≤ st.timeSec + (fc : ℚ) / (sr : ℚ)))) ∧
    (∀ (evs : List ScheduledEvent) (st : CBState) (fc sr : Nat),
      ∀ e ∈ (data_callback_step evs st fc sr).2,
        e.tSec ≤ st.timeSec + (fc : ℚ) / (sr : ℚ)) ∧
    (∀ (evs : List ScheduledEvent) (st : CBState) (fc sr : Nat),
      st.nextIndex ≤ (data_callback_step evs st fc sr).1.nextIndex ∧
      st.timeSec ≤ (data_callback_step evs st fc sr).1.timeSec ∧
      (data_callback_step evs st fc sr).1.timeSec =
        st.timeSec + (fc : ℚ) / (sr : ℚ)) ∧
    (∀ (evs : List ScheduledEvent) (sr : Nat) (reqs : List Nat),
      (runCallbacks evs sr reqs ⟨0, 0⟩).2 =
        evs.take (runCallbacks evs sr reqs ⟨0, 0⟩).1.nextIndex ∧
      (runCallbacks evs sr reqs ⟨0, 0⟩).1.nextIndex ≤ evs.length) ∧
    (∀ (evs : List ScheduledEvent) (st : CBState) (fc sr : Nat), timeSorted evs →
      ∀ k (hk : k < evs.length), (data_callback_step evs st fc sr).1.nextIndex ≤ k →
        (data_callback_step evs st fc sr).1.timeSec < (evs.get ⟨k, hk⟩).tSec) := by
  refine ⟨?_, ?_, ?_, ?_, ?_⟩
  · intro evs st fc sr hs
    exact timeSorted_takeWhile_filter _ _ (hs.sublist (List.drop_sublist _ _))
  · intro evs st fc sr e he
    have := List.mem_takeWhile_imp he
    simpa using this
  · intro evs st fc sr
    refine ⟨Nat.le_add_right _ _, ?_, rfl⟩
    have hdt : (0 : ℚ) ≤ (fc : ℚ) / (sr : ℚ) :=
      div_nonneg (Nat.cast_nonneg fc) (Nat.cast_nonneg sr)
    show st.timeSec ≤ st.timeSec + (fc : ℚ) / (sr : ℚ)
    linarith
  · intro evs sr reqs
    obtain ⟨h1, h2, h3⟩ := runCallbacks_take evs sr reqs ⟨0, 0⟩ (Nat.zero_le _)
    refine ⟨?_, h2⟩
    rw [h3]
    simp
  · intro evs st fc sr hs k hk hge
    have hsd : timeSorted (evs.drop st.nextIndex) :=
      hs.sublist (List.drop_sublist _ _)
    have hstle : st.nextIndex ≤ k := le_trans (Nat.le_add_right _ _) hge
    have hk' : k - st.nextIndex < (evs.drop st.nextIndex).length := by
      rw [List.length_drop]
      omega
    have hlen : ((evs.drop st.nextIndex).takeWhile
        (fun e => decide (e.tSec ≤ st.timeSec + (fc : ℚ) / (sr : ℚ)))).length ≤
          k - st.nextIndex := by
      have : (data_callback_step evs st fc sr).1.nextIndex =
          st.nextIndex + ((evs.drop st.nextIndex).takeWhile
            (fun e => decide (e.tSec ≤ st.timeSec + (fc : ℚ) / (sr : ℚ)))).length := rfl
      omega
    have hb := timeSorted_takeWhile_bound (st.timeSec + (fc : ℚ) / (sr : ℚ))
      (evs.drop st.nextIndex) hsd (k - st.nextIndex) hk' hlen
    have hgd : ((evs.drop st.nextIndex).get ⟨k - st.nextIndex, hk'⟩) =
        evs.get ⟨k, hk⟩ := by
      simp only [List.get_eq_getElem, List.getElem_drop]
      congr 1
      omega
    rw [hgd] at hb
    exact hb

/-- Witness for C8: the per-step completeness clause at a one-event schedule
whose event lies beyond the first buffer window. -/
theorem C8_callback_spec_witness :
    (data_callback_step [⟨1, 0, 60, 100, true⟩] ⟨0, 0⟩ 1 2).1.timeSec <
      (([⟨1, 0, 60, 100, true⟩] : List ScheduledEvent).get ⟨0, by simp⟩).tSec :=
  C8_callback_spec.2.2.2.2 [⟨1, 0, 60, 100, true⟩] ⟨0, 0⟩ 1 2
    (by simp [timeSorted]) 0 (by simp)
    (by norm_num [data_callback_step])

end MidiPlayer